import Mathlib

/-!
# sway/commands.c: command dispatcher, argument validator, colour helper

A shallow embedding of `sway/commands.c`.  C strings are modelled by the list
of their characters before the terminating NUL; a `NULL` pointer is `none`;
`int` is `Int`: the arguments of `checkarg` are only compared and printed, and
the `int len = strlen(color)` of `add_color` is the length reduced to 32 bits
(`int_of_size`).  Allocation (`malloc`, `strdup`) is taken to succeed.
-/

set_option autoImplicit false

namespace Sway

/-! ## Data model -/

/-- A C string: the characters before the terminating NUL, one `Char` per byte. -/
abbrev CStr := List Char

/-- Modelled from the spec: `enum cmd_status` of `sway/commands.h` (the header is
not part of the sources).  The result statuses SUCCESS, FAILURE and INVALID,
followed by the block kinds that select a handler table. -/
inductive cmd_status where
  | CMD_SUCCESS
  | CMD_FAILURE
  | CMD_INVALID
  | CMD_BLOCK_END
  | CMD_BLOCK_BAR
  | CMD_BLOCK_BAR_COLORS
  | CMD_BLOCK_INPUT
  | CMD_BLOCK_IPC
  | CMD_BLOCK_IPC_EVENTS
  deriving DecidableEq, Repr

/-- Modelled from the spec: `struct cmd_results` of `sway/commands.h`; the three
fields are the ones `cmd_results_new` assigns. -/
structure cmd_results where
  status : cmd_status
  input : Option CStr
  error : Option CStr
  deriving DecidableEq, Repr

/-- Modelled from the spec: `enum expected_args` of `sway/commands.h`; the four
relations are the four cases of the `switch` in `checkarg`. -/
inductive expected_args where
  | EXPECTED_MORE_THAN
  | EXPECTED_AT_LEAST
  | EXPECTED_LESS_THAN
  | EXPECTED_EQUAL_TO
  deriving DecidableEq, Repr

/-- The type `sway_cmd` of a handler function: `(argc, argv) -> cmd_results *`. -/
abbrev sway_cmd := Int → List CStr → Option cmd_results

/-- The `struct cmd_handler` of the source; `handle` is `none` for the search key
`d` of `find_handler`, which is initialised with `.command` only. -/
structure cmd_handler where
  command : CStr
  handle : Option sway_cmd

/-! ## libc pieces -/

/-- The conversion `%d` of `printf` applied to an `int`. -/
def fmt_d : Int → CStr
  | Int.ofNat n => Nat.toDigits 10 n
  | Int.negSucc n => '-' :: Nat.toDigits 10 (n + 1)

/-- What `vsnprintf(error, 256, ...)` leaves in the buffer: at most 255
characters of the formatted text (the 256th byte is the terminator). -/
def vsnprintf256 (formatted : CStr) : CStr :=
  formatted.take 255

/-- The function `tolower` in the C locale. -/
def tolower (c : Char) : Char :=
  if 65 ≤ c.toNat ∧ c.toNat ≤ 90 then Char.ofNat (c.toNat + 32) else c

/-- The function `isxdigit` in the C locale: `0-9`, `A-F`, `a-f`. -/
def isxdigit (c : Char) : Bool :=
  (48 ≤ c.toNat && c.toNat ≤ 57) || (65 ≤ c.toNat && c.toNat ≤ 70)
    || (97 ≤ c.toNat && c.toNat ≤ 102)

/-- The function `strcasecmp`: compares the two strings character by character
after `tolower`.  POSIX fixes only the sign of the result, and the sign is what
this model returns. -/
def strcasecmp : CStr → CStr → Int
  | [], [] => 0
  | [], _ :: _ => -1
  | _ :: _, [] => 1
  | a :: as, b :: bs =>
    if tolower a = tolower b then strcasecmp as bs
    else if (tolower a).toNat < (tolower b).toNat then -1 else 1

/-- The function `strspn(s, accept)`: length of the longest prefix of `s` made
of characters of `accept`. -/
def strspn (s accept : CStr) : Nat :=
  (s.takeWhile (fun c => decide (c ∈ accept))).length

/-- The loop of `bsearch`: halve the interval `[l, u)` until the key is found or
the interval is empty.  The outer `none` means the fuel ran out; the inner value
is the pointer returned by `bsearch`. -/
def bsearch_loop {α : Type} (key : α) (base : List α) (compar : α → α → Int) :
    Nat → Nat → Nat → Option (Option α)
  | 0, _, _ => none
  | fuel + 1, l, u =>
    if l < u then
      let idx := (l + u) / 2
      match base.get? idx with
      | none => some none
      | some p =>
        let comparison := compar key p
        if comparison < 0 then bsearch_loop key base compar fuel l idx
        else if 0 < comparison then bsearch_loop key base compar fuel (idx + 1) u
        else some (some p)
    else some none

/-- The function `bsearch(key, base, nmemb, size, compar)` over an array of
`nmemb` elements. -/
def bsearch {α : Type} (key : α) (base : List α) (nmemb : Nat)
    (compar : α → α → Int) : Option α :=
  (bsearch_loop key base compar (nmemb + 1) 0 nmemb).join

/-! ## cmd_results_new, checkarg -/

/-- The function `cmd_results_new(status, input, format, ...)`.  The argument
`formatted` is the text that `format` and the variadic arguments expand to
(`none` when `format` is `NULL`); the stored error is what `vsnprintf` writes
into the 256-byte buffer. -/
def cmd_results_new (status : cmd_status) (input : Option CStr)
    (formatted : Option CStr) : cmd_results :=
  { status := status
    input := input
    error := formatted.map vsnprintf256 }

/-- The expression `(char*[2]){"s", ""}[argc==1]` of `checkarg`. -/
def plural_suffix (argc : Int) : CStr :=
  if argc = 1 then [] else "s".toList

/-- The function `checkarg`: `none` is the `NULL` returned when the check
succeeds. -/
def checkarg (argc : Int) (name : CStr) (type : expected_args) (val : Int) :
    Option cmd_results :=
  match type with
  | .EXPECTED_MORE_THAN =>
    if argc > val then none
    else some (cmd_results_new .CMD_INVALID (some name)
      (some ("Invalid ".toList ++ name ++ " command (expected more than ".toList
        ++ fmt_d val ++ " argument".toList ++ plural_suffix argc
        ++ ", got ".toList ++ fmt_d argc ++ ")".toList)))
  | .EXPECTED_AT_LEAST =>
    if argc ≥ val then none
    else some (cmd_results_new .CMD_INVALID (some name)
      (some ("Invalid ".toList ++ name ++ " command (expected at least ".toList
        ++ fmt_d val ++ " argument".toList ++ plural_suffix argc
        ++ ", got ".toList ++ fmt_d argc ++ ")".toList)))
  | .EXPECTED_LESS_THAN =>
    if argc < val then none
    else some (cmd_results_new .CMD_INVALID (some name)
      (some ("Invalid ".toList ++ name ++ " command (expected less than ".toList
        ++ fmt_d val ++ " argument".toList ++ plural_suffix argc
        ++ ", got ".toList ++ fmt_d argc ++ ")".toList)))
  | .EXPECTED_EQUAL_TO =>
    if argc = val then none
    else some (cmd_results_new .CMD_INVALID (some name)
      (some ("Invalid ".toList ++ name ++ " command (expected ".toList
        ++ fmt_d val ++ " arguments, got ".toList ++ fmt_d argc ++ ")".toList)))

/-! ## add_color -/

/-- The function `strncpy(dest, src, n)`: writes exactly `n` bytes to `dest`,
the bytes of `src` followed by NUL padding.  `dest` is raw memory, so it may
hold NUL bytes; writes past its end are outside the model. -/
def strncpy : List Char → CStr → Nat → List Char
  | dest, _, 0 => dest
  | [], _, _ + 1 => []
  | _ :: dest, [], n + 1 => Char.ofNat 0 :: strncpy dest [] n
  | _ :: dest, c :: src, n + 1 => c :: strncpy dest src n

/-- The C string held by a buffer: its bytes up to the first NUL. -/
def cstr_of (buffer : List Char) : CStr :=
  buffer.takeWhile (fun c => c ≠ Char.ofNat 0)

/-- The value that `int len = strlen(color)` receives: the length reduced to
32 bits in two's complement, as gcc and clang convert a `size_t` to `int`.  It
is the length itself for a string shorter than 2^31 bytes. -/
def int_of_size (n : Nat) : Int :=
  (((n + 2147483648) % 4294967296 : Nat) : Int) - 2147483648

/-- The function `add_color(name, buffer, color)`: the returned pair is the
result pointer (`none` is the `NULL` of an accepted colour) and the contents of
`buffer` afterwards.  `len` is the `int` that holds `strlen(color)`; the `for`
loop over `color[1..len-1]` is the `all` over those characters, and `strncpy`
copies `len` bytes. -/
def add_color (name : CStr) (buffer : List Char) (color : CStr) :
    Option cmd_results × List Char :=
  let len : Int := int_of_size color.length
  if len ≠ 7 ∧ len ≠ 9 then
    (some (cmd_results_new .CMD_INVALID (some name)
      (some ("Invalid color definition ".toList ++ color))), buffer)
  else if color.head? ≠ some '#' then
    (some (cmd_results_new .CMD_INVALID (some name)
      (some ("Invalid color definition ".toList ++ color))), buffer)
  else if !((color.take len.toNat).drop 1).all isxdigit then
    (some (cmd_results_new .CMD_INVALID (some name)
      (some ("Invalid color definition ".toList ++ color))), buffer)
  else
    let buffer := strncpy buffer color len.toNat
    let buffer := if len = 7 then (buffer.set 7 'f').set 8 'f' else buffer
    let buffer := buffer.set 9 (Char.ofNat 0)
    (none, buffer)

/-! ## Handler table and lookup -/

/-- The table `handlers[]`; the handler function `cmd_exit` is defined outside
this file and is a parameter of the model. -/
def handlers (cmd_exit : sway_cmd) : List cmd_handler :=
  [{ command := "exit".toList, handle := some cmd_exit }]

/-- The comparator `handler_compare`. -/
def handler_compare (a b : cmd_handler) : Int :=
  strcasecmp a.command b.command

/-- The function `find_handler(line, block)`: every `block` searches the one
table `handlers` (the per-block tables are commented out in the source). -/
def find_handler (cmd_exit : sway_cmd) (line : CStr) (_block : cmd_status) :
    Option cmd_handler :=
  let d : cmd_handler := { command := line, handle := none }
  bsearch d (handlers cmd_exit) (handlers cmd_exit).length handler_compare

/-! ## stringop helpers (not part of the sources) -/

/-- Modelled from the spec: the constant `whitespace` of `stringop.h`, the
characters the splitter trims and the tokenizer splits on: space, form feed,
newline, carriage return, tab, vertical tab. -/
def whitespace : CStr :=
  [Char.ofNat 32, Char.ofNat 12, Char.ofNat 10, Char.ofNat 13, Char.ofNat 9, Char.ofNat 11]

/-- Modelled from the spec: `argsep(&s, delim)` of `stringop.h`, the splitter
step.  It returns the text before the first delimiter character and leaves in
`s` the text after that delimiter, or `NULL` (`none`) when there is no
delimiter left.  Quotes do not protect a delimiter. -/
def argsep : CStr → CStr → CStr × Option CStr
  | [], _ => ([], none)
  | c :: cs, delim =>
    if c ∈ delim then ([], some cs)
    else (c :: (argsep cs delim).1, (argsep cs delim).2)

/-- The double quote character. -/
def dquote : Char := Char.ofNat 34

/-- The single quote character. -/
def squote : Char := Char.ofNat 39

/-- The scanning loop of `split_args`: `quote` is the quote character of the
quoted region being read, `tok` the token read so far. -/
def split_args_loop : CStr → Option Char → CStr → List CStr
  | [], _, tok => if tok = [] then [] else [tok]
  | c :: cs, none, tok =>
    if c ∈ whitespace then
      (if tok = [] then split_args_loop cs none [] else tok :: split_args_loop cs none [])
    else if c = dquote ∨ c = squote then split_args_loop cs (some c) (tok ++ [c])
    else split_args_loop cs none (tok ++ [c])
  | c :: cs, some q, tok =>
    if c = q then split_args_loop cs none (tok ++ [c])
    else split_args_loop cs (some q) (tok ++ [c])

/-- Modelled from the spec: `split_args(cmd, &argc)` of `stringop.h`, the
tokenizer.  Tokens are split on whitespace; a single- or double-quoted region
is atomic and keeps its quotes.  `argc` is the length of the result. -/
def split_args (cmd : CStr) : List CStr :=
  split_args_loop cmd none []

/-- Modelled from the spec: `strip_quotes(str)` of `stringop.h`: removes one
layer of surrounding quotes, that is the leading quote character and the
matching quote character at the end when there is one. -/
def strip_quotes (str : CStr) : CStr :=
  match str with
  | [] => []
  | q :: rest =>
    if q = dquote ∨ q = squote then
      (if rest.getLast? = some q then rest.dropLast else rest)
    else str

/-! ## handle_command -/

/-- The calls of `sway_log` made while a line is handled. -/
inductive log_event where
  | ignoring_empty
  | handling (cmd : CStr)
  | find_handler (line : CStr)
  deriving DecidableEq, Repr

/-- The local state of `handle_command`: the variable `results` and the log
written so far. -/
structure dispatch_state where
  results : Option cmd_results
  log : List log_event
  deriving DecidableEq, Repr

/-- Lines 162-170 of `handle_command`: tokenize the command and, unless its
name is `exec`, strip the quotes of the arguments `argv[1..argc-1]` that begin
with a quote character. -/
def prepare_argv (cmd : CStr) : List CStr :=
  let argv := split_args cmd
  if argv.headD [] ≠ "exec".toList then
    match argv with
    | [] => []
    | argv0 :: args =>
      argv0 :: args.map (fun a =>
        if a.head? = some dquote ∨ a.head? = some squote then strip_quotes a else a)
  else argv

/-- The inner `do ... while (cmdlist)` loop of `handle_command`.  The outer
`none` means the fuel ran out; the flag is `true` when the loop left through
`goto cleanup`.  The log entry `find_handler` is the `sway_log` call at the
start of `find_handler`.  After a successful lookup the source only calls
`free_argv`: there is no call of `handler->handle`. -/
def command_loop (cmd_exit : sway_cmd) :
    Nat → CStr → dispatch_state → Option (Bool × dispatch_state)
  | 0, _, _ => none
  | fuel + 1, cmdlist, st =>
    let cmd := (argsep cmdlist ",".toList).1
    let cmdlist := (argsep cmdlist ",".toList).2
    let cmd := cmd.drop (strspn cmd whitespace)
    if cmd = [] then
      let st := { st with log := st.log ++ [log_event.ignoring_empty] }
      match cmdlist with
      | some rest => command_loop cmd_exit fuel rest st
      | none => some (false, st)
    else
      let argv := prepare_argv cmd
      let st := { st with
        log := st.log ++ [log_event.handling cmd, log_event.find_handler (argv.headD [])] }
      match find_handler cmd_exit (argv.headD []) .CMD_BLOCK_END with
      | none =>
        some (true, { st with
          results := some (cmd_results_new .CMD_INVALID (some cmd)
            (some "Unknown/invalid command".toList)) })
      | some _ =>
        match cmdlist with
        | some rest => command_loop cmd_exit fuel rest st
        | none => some (false, st)

/-- The outer `do ... while (head)` loop of `handle_command`; `n` is the fuel
handed to each run of the inner loop. -/
def cmdlist_loop (cmd_exit : sway_cmd) (n : Nat) :
    Nat → CStr → dispatch_state → Option dispatch_state
  | 0, _, _ => none
  | fuel + 1, head, st =>
    let cmdlist := (argsep head ";".toList).1
    let head := (argsep head ";".toList).2
    let cmdlist := cmdlist.drop (strspn cmdlist whitespace)
    match command_loop cmd_exit n cmdlist st with
    | none => none
    | some (true, st) => some st
    | some (false, st) =>
      match head with
      | some rest => cmdlist_loop cmd_exit n fuel rest st
      | none => some st

/-- The function `handle_command(_exec)` together with the log it writes.  Both
loops get `strlen(exec) + 1` units of fuel; `none` means the fuel ran out. -/
def handle_command_run (cmd_exit : sway_cmd) (_exec : CStr) :
    Option (cmd_results × List log_event) :=
  let exec := _exec
  match cmdlist_loop cmd_exit (exec.length + 1) (exec.length + 1) exec
      { results := none, log := [] } with
  | none => none
  | some st =>
    match st.results with
    | none => some (cmd_results_new .CMD_SUCCESS none none, st.log)
    | some results => some (results, st.log)

/-- The function `handle_command(_exec)`: the result it returns. -/
def handle_command (cmd_exit : sway_cmd) (_exec : CStr) : Option cmd_results :=
  (handle_command_run cmd_exit _exec).map Prod.fst

/-! ## The line as a list of commands (reference splitting) -/

/-- The pieces of `s` between the occurrences of the separator `d`. -/
def split_on (d : Char) : CStr → List CStr
  | [] => [[]]
  | c :: cs =>
    if c = d then [] :: split_on d cs
    else
      match split_on d cs with
      | [] => [[c]]
      | piece :: pieces => (c :: piece) :: pieces

/-- Removal of leading whitespace. -/
def trim_leading (s : CStr) : CStr :=
  s.dropWhile (fun c => decide (c ∈ whitespace))

/-- The commands of a line: split on `;`, trim, split each piece on `,`, trim. -/
def commands (line : CStr) : List CStr :=
  (split_on ';' line).flatMap (fun cmdlist =>
    (split_on ',' (trim_leading cmdlist)).map trim_leading)

/-- The name of a command: `argv[0]` of its argument vector. -/
def command_name (cmd : CStr) : CStr :=
  (prepare_argv cmd).headD []

/-- A command the dispatcher cannot resolve: not empty, and no handler for its
name. -/
def unresolved (cmd_exit : sway_cmd) (cmd : CStr) : Bool :=
  cmd ≠ [] && (find_handler cmd_exit (command_name cmd) .CMD_BLOCK_END).isNone

/-- The log entries of one command. -/
def command_log (cmd : CStr) : List log_event :=
  if cmd = [] then [log_event.ignoring_empty]
  else [log_event.handling cmd, log_event.find_handler (command_name cmd)]

/-- The result for an unknown command. -/
def unknown_command (cmd : CStr) : cmd_results :=
  { status := .CMD_INVALID, input := some cmd, error := some "Unknown/invalid command".toList }

/-- The synthetic success of a line. -/
def line_success : cmd_results :=
  { status := .CMD_SUCCESS, input := none, error := none }

/-- The dispatch of a list of commands one after the other: each command is
logged, and the first unresolved command ends the dispatch with its result.
The flag tells whether the dispatch ended that way. -/
def run_commands (cmd_exit : sway_cmd) : List CStr → dispatch_state → Bool × dispatch_state
  | [], st => (false, st)
  | cmd :: rest, st =>
    if unresolved cmd_exit cmd then
      (true, { results := some (unknown_command cmd), log := st.log ++ command_log cmd })
    else run_commands cmd_exit rest { results := st.results, log := st.log ++ command_log cmd }

/-- The result and log that `handle_command` returns from its final state. -/
def finish (st : dispatch_state) : cmd_results × List log_event :=
  match st.results with
  | none => (cmd_results_new .CMD_SUCCESS none none, st.log)
  | some results => (results, st.log)

/-! ## Reference reading of a colour -/

/-- The hexadecimal digits `0-9`, `a-f`, `A-F`. -/
def hex_digits : CStr := "0123456789abcdefABCDEF".toList

/-- A well-formed colour: 7 or 9 characters, the first one `#`, every other
one a hexadecimal digit. -/
def valid_color (color : CStr) : Bool :=
  (decide (color.length = 7) || decide (color.length = 9))
    && decide (color.head? = some '#')
    && (color.drop 1).all (fun c => decide (c ∈ hex_digits))

/-- The text `Invalid color definition <color>`. -/
def color_text (color : CStr) : CStr :=
  "Invalid color definition ".toList ++ color

/-- The characters of the colour that `add_color` reads: the first `len`
ones, `len` being the `int` that holds `strlen(color)`.  They are the whole
colour when it is shorter than 2^31 bytes. -/
def color_seen (color : CStr) : CStr :=
  color.take (int_of_size color.length).toNat

/-! ## cmd_results_to_json -/

/-- The values of the json-c library that `cmd_results_to_json` builds: null,
booleans, strings, arrays, and objects as lists of fields in insertion order. -/
inductive json_object where
  | null
  | boolean (b : Bool)
  | string (s : CStr)
  | array (items : List json_object)
  | object (fields : List (CStr × json_object))

/-- The json-c call `json_object_object_add(obj, key, val)`: the field replaces
a field of the same key, or is added after the fields present. -/
def json_object_object_add (obj : json_object) (key : CStr) (val : json_object) :
    json_object :=
  match obj with
  | .object fields =>
    if fields.any (fun kv => kv.1 == key) then
      .object (fields.map (fun kv => if kv.1 == key then (key, val) else kv))
    else .object (fields ++ [(key, val)])
  | other => other

/-- The json-c call `json_object_array_add(arr, val)`. -/
def json_object_array_add (arr : json_object) (val : json_object) : json_object :=
  match arr with
  | .array items => .array (items ++ [val])
  | other => other

/-- The function `cmd_results_to_json(results)`: the JSON value it hands to
`json_object_to_json_string`, whose rendering is the string it returns. -/
def cmd_results_to_json (results : cmd_results) : json_object :=
  let result_array := json_object.array []
  let root := json_object.object []
  let root := json_object_object_add root "success".toList
    (.boolean (decide (results.status = .CMD_SUCCESS)))
  let root :=
    match results.input with
    | some input => json_object_object_add root "input".toList (.string input)
    | none => root
  let root :=
    match results.error with
    | some error => json_object_object_add root "error".toList (.string error)
    | none => root
  json_object_array_add result_array root

/-- The test `*argv[i] == '"' || *argv[i] == '\''` of `handle_command`: the
token begins with a quote character. -/
def begins_with_quote (tok : CStr) : Bool :=
  decide (tok.head? = some dquote ∨ tok.head? = some squote)

/-- A handler that always reports a failure, for concrete evaluation. -/
def sample_exit : sway_cmd := fun _ _ =>
  some { status := .CMD_FAILURE, input := some "exit".toList, error := some "refused".toList }

/-! ## Reference readings of the argument validator -/

/-- The relation named by an `expected_args` value, between the argument count
and the threshold. -/
def relation_holds (type : expected_args) (argc val : Int) : Bool :=
  match type with
  | .EXPECTED_MORE_THAN => decide (argc > val)
  | .EXPECTED_AT_LEAST => decide (argc ≥ val)
  | .EXPECTED_LESS_THAN => decide (argc < val)
  | .EXPECTED_EQUAL_TO => decide (argc = val)

/-- The relation in words, as it appears in the message of `checkarg`. -/
def relation_words (type : expected_args) : CStr :=
  match type with
  | .EXPECTED_MORE_THAN => "more than ".toList
  | .EXPECTED_AT_LEAST => "at least ".toList
  | .EXPECTED_LESS_THAN => "less than ".toList
  | .EXPECTED_EQUAL_TO => []

/-- The text `Invalid <name> command (expected <relation> <val> argument<sfx>, got <argc>)`. -/
def checkarg_text (name : CStr) (type : expected_args) (val : Int) (sfx : CStr)
    (argc : Int) : CStr :=
  "Invalid ".toList ++ name ++ " command (expected ".toList ++ relation_words type
    ++ fmt_d val ++ " argument".toList ++ sfx ++ ", got ".toList ++ fmt_d argc ++ ")".toList

/-! ## checkarg -/

/-- C1: `checkarg` returns `NULL` exactly when the relation named by `type`
holds between `argc` and `val` (more than: `argc > val`, at least:
`argc >= val`, less than: `argc < val`, equal to: `argc == val`); in every
other case it returns a result. -/
theorem checkarg_accepts_iff (argc : Int) (name : CStr) (val : Int) :
    (checkarg argc name .EXPECTED_MORE_THAN val = none ↔ argc > val)
    ∧ (checkarg argc name .EXPECTED_AT_LEAST val = none ↔ argc ≥ val)
    ∧ (checkarg argc name .EXPECTED_LESS_THAN val = none ↔ argc < val)
    ∧ (checkarg argc name .EXPECTED_EQUAL_TO val = none ↔ argc = val)
    ∧ ∀ type, (checkarg argc name type val = none ↔ relation_holds type argc val = true)
        ∧ (relation_holds type argc val = false ↔ ∃ r, checkarg argc name type val = some r) := by
  refine ⟨?_, ?_, ?_, ?_, ?_⟩
  · simp only [checkarg]; split_ifs with h <;> simp [h]
  · simp only [checkarg]; split_ifs with h <;> simp [h]
  · simp only [checkarg]; split_ifs with h <;> simp [h]
  · simp only [checkarg]; split_ifs with h <;> simp [h]
  · intro type
    cases type <;> simp only [checkarg, relation_holds] <;>
      split_ifs with h <;> simp [h]

/-- The message of `checkarg` is the text `checkarg_text` with one of the two
suffixes, cut by `vsnprintf`. -/
theorem checkarg_some (argc : Int) (name : CStr) (type : expected_args) (val : Int)
    (h : relation_holds type argc val = false) :
    ∃ sfx, (sfx = [] ∨ sfx = "s".toList) ∧
      checkarg argc name type val = some
        { status := .CMD_INVALID, input := some name,
          error := some ((checkarg_text name type val sfx argc).take 255) } := by
  have hs : " arguments, got ".toList = " argument".toList ++ ("s".toList ++ ", got ".toList) := by
    decide
  have h1 : " command (expected more than ".toList
      = " command (expected ".toList ++ "more than ".toList := by decide
  have h2 : " command (expected at least ".toList
      = " command (expected ".toList ++ "at least ".toList := by decide
  have h3 : " command (expected less than ".toList
      = " command (expected ".toList ++ "less than ".toList := by decide
  cases type
  · refine ⟨plural_suffix argc, ?_, ?_⟩
    · unfold plural_suffix; split_ifs <;> simp
    · have h' : ¬ argc > val := by simpa [relation_holds] using h
      simp only [checkarg, if_neg h', cmd_results_new, vsnprintf256, checkarg_text,
        relation_words, Option.map, h1, List.append_assoc]
  · refine ⟨plural_suffix argc, ?_, ?_⟩
    · unfold plural_suffix; split_ifs <;> simp
    · have h' : ¬ argc ≥ val := by simpa [relation_holds] using h
      simp only [checkarg, if_neg h', cmd_results_new, vsnprintf256, checkarg_text,
        relation_words, Option.map, h2, List.append_assoc]
  · refine ⟨plural_suffix argc, ?_, ?_⟩
    · unfold plural_suffix; split_ifs <;> simp
    · have h' : ¬ argc < val := by simpa [relation_holds] using h
      simp only [checkarg, if_neg h', cmd_results_new, vsnprintf256, checkarg_text,
        relation_words, Option.map, h3, List.append_assoc]
  · refine ⟨"s".toList, Or.inr rfl, ?_⟩
    have h' : ¬ argc = val := by simpa [relation_holds] using h
    simp only [checkarg, if_neg h', cmd_results_new, vsnprintf256, checkarg_text,
      relation_words, Option.map, hs, List.append_assoc, List.nil_append]

/-- The text of `checkarg` is longer than the command name. -/
theorem checkarg_text_length (name : CStr) (type : expected_args) (val : Int) (sfx : CStr)
    (argc : Int) : name.length + 8 ≤ (checkarg_text name type val sfx argc).length := by
  have h8 : "Invalid ".toList.length = 8 := by decide
  simp only [checkarg_text, List.length_append, h8]
  omega

/-- With a name of 247 characters or more, `vsnprintf` keeps `Invalid ` and the
first 247 characters of the name. -/
theorem checkarg_text_take (name : CStr) (type : expected_args) (val : Int) (sfx : CStr)
    (argc : Int) (hn : 247 ≤ name.length) :
    (checkarg_text name type val sfx argc).take 255 = "Invalid ".toList ++ name.take 247 := by
  have h8 : "Invalid ".toList.length = 8 := by decide
  simp only [checkarg_text, List.append_assoc]
  rw [List.take_append_eq_append_take, List.take_of_length_le (by rw [h8]; omega), h8,
    List.take_append_eq_append_take]
  have h0 : 255 - 8 - name.length = 0 := by omega
  rw [h0, List.take_zero, List.append_nil]

/-- C2 (counterexample): for a command name of 300 characters the message of
`checkarg(2, name, EXPECTED_AT_LEAST, 3)` is `Invalid ` followed by the first
247 characters of the name; it is not the full text with either suffix, so
neither the relation nor the counts appear in it. -/
theorem checkarg_long_name_cut :
    ∃ r, checkarg 2 (List.replicate 300 'a') .EXPECTED_AT_LEAST 3 = some r
      ∧ r.error = some ("Invalid ".toList ++ (List.replicate 300 'a').take 247)
      ∧ ∀ sfx, r.error ≠
          some (checkarg_text (List.replicate 300 'a') .EXPECTED_AT_LEAST 3 sfx 2) := by
  obtain ⟨sfx0, -, hr⟩ :=
    checkarg_some 2 (List.replicate 300 'a') .EXPECTED_AT_LEAST 3 (by decide)
  have hn : 247 ≤ (List.replicate 300 'a').length := by
    rw [List.length_replicate]; omega
  rw [checkarg_text_take _ _ _ _ _ hn] at hr
  refine ⟨_, hr, rfl, ?_⟩
  intro sfx hEq
  have hlen := congrArg List.length (Option.some.inj hEq)
  have hge := checkarg_text_length (List.replicate 300 'a') .EXPECTED_AT_LEAST 3 sfx 2
  have h8 : "Invalid ".toList.length = 8 := by decide
  rw [List.length_append, h8, List.length_take] at hlen
  rw [List.length_replicate] at hge
  omega

/-- With a count other than 1 the message of `checkarg` has the plural
`arguments`. -/
theorem checkarg_plural (argc : Int) (name : CStr) (type : expected_args) (val : Int)
    (h : relation_holds type argc val = false) (ha : argc ≠ 1) :
    checkarg argc name type val = some
      { status := .CMD_INVALID, input := some name,
        error := some ((checkarg_text name type val "s".toList argc).take 255) } := by
  have hs : " arguments, got ".toList = " argument".toList ++ ("s".toList ++ ", got ".toList) := by
    decide
  have h1 : " command (expected more than ".toList
      = " command (expected ".toList ++ "more than ".toList := by decide
  have h2 : " command (expected at least ".toList
      = " command (expected ".toList ++ "at least ".toList := by decide
  have h3 : " command (expected less than ".toList
      = " command (expected ".toList ++ "less than ".toList := by decide
  have hp : plural_suffix argc = "s".toList := by
    unfold plural_suffix
    rw [if_neg ha]
  cases type
  · have h' : ¬ argc > val := by simpa [relation_holds] using h
    simp only [checkarg, if_neg h', cmd_results_new, vsnprintf256, checkarg_text,
      relation_words, Option.map, h1, hp, List.append_assoc]
  · have h' : ¬ argc ≥ val := by simpa [relation_holds] using h
    simp only [checkarg, if_neg h', cmd_results_new, vsnprintf256, checkarg_text,
      relation_words, Option.map, h2, hp, List.append_assoc]
  · have h' : ¬ argc < val := by simpa [relation_holds] using h
    simp only [checkarg, if_neg h', cmd_results_new, vsnprintf256, checkarg_text,
      relation_words, Option.map, h3, hp, List.append_assoc]
  · have h' : ¬ argc = val := by simpa [relation_holds] using h
    simp only [checkarg, if_neg h', cmd_results_new, vsnprintf256, checkarg_text,
      relation_words, Option.map, hs, List.append_assoc, List.nil_append]

/-- The text of `checkarg(2, name, EXPECTED_AT_LEAST, 3)`. -/
theorem checkarg_text_at_least_3_2 (name : CStr) :
    checkarg_text name .EXPECTED_AT_LEAST 3 "s".toList 2
      = "Invalid ".toList ++ name
          ++ " command (expected at least 3 arguments, got 2)".toList := by
  have ht : " command (expected ".toList ++ (relation_words .EXPECTED_AT_LEAST
      ++ (fmt_d 3 ++ (" argument".toList ++ ("s".toList ++ (", got ".toList
      ++ (fmt_d 2 ++ ")".toList))))))
      = " command (expected at least 3 arguments, got 2)".toList := by decide
  simp only [checkarg_text, List.append_assoc, ht]

/-- C2 (amended): when `argc` and `val` violate the relation, `checkarg` returns
a result with status `CMD_INVALID`, input equal to the command name, and as
error the first 255 characters of
`Invalid <name> command (expected <relation> <val> argument[s], got <argc>)`,
with the plural `arguments` whenever neither `val` nor `argc` is 1; the error
is that whole text whenever the text has at most 255 characters.  In
particular the error of `checkarg(2, name, EXPECTED_AT_LEAST, 3)` is the first
255 characters of `Invalid <name> command (expected at least 3 arguments, got 2)`,
and for a name of at most 200 characters it is that whole text, ending in
`expected at least 3 arguments, got 2)`. -/
theorem checkarg_violation_result (argc : Int) (name : CStr) (type : expected_args)
    (val : Int) (h : relation_holds type argc val = false) :
    (∃ sfx, (sfx = [] ∨ sfx = "s".toList) ∧ (argc ≠ 1 → val ≠ 1 → sfx = "s".toList) ∧
      checkarg argc name type val = some
        { status := .CMD_INVALID, input := some name,
          error := some ((checkarg_text name type val sfx argc).take 255) } ∧
      ((checkarg_text name type val sfx argc).length ≤ 255 →
        checkarg argc name type val = some
          { status := .CMD_INVALID, input := some name,
            error := some (checkarg_text name type val sfx argc) }))
    ∧ checkarg 2 name .EXPECTED_AT_LEAST 3 = some
        { status := .CMD_INVALID, input := some name,
          error := some (("Invalid ".toList ++ name
            ++ " command (expected at least 3 arguments, got 2)".toList).take 255) }
    ∧ (name.length ≤ 200 →
        checkarg 2 name .EXPECTED_AT_LEAST 3 = some
          { status := .CMD_INVALID, input := some name,
            error := some ("Invalid ".toList ++ name
              ++ " command (expected at least 3 arguments, got 2)".toList) }
        ∧ "expected at least 3 arguments, got 2)".toList
            <:+ ("Invalid ".toList ++ name
              ++ " command (expected at least 3 arguments, got 2)".toList)) := by
  have hex : checkarg 2 name .EXPECTED_AT_LEAST 3 = some
      { status := .CMD_INVALID, input := some name,
        error := some (("Invalid ".toList ++ name
          ++ " command (expected at least 3 arguments, got 2)".toList).take 255) } := by
    rw [checkarg_plural 2 name .EXPECTED_AT_LEAST 3 (by decide) (by decide),
      checkarg_text_at_least_3_2]
  refine ⟨?_, hex, ?_⟩
  · by_cases ha : argc = 1
    · obtain ⟨sfx, hs, hr⟩ := checkarg_some argc name type val h
      refine ⟨sfx, hs, fun hne => absurd ha hne, hr, fun hlen => ?_⟩
      rw [hr, List.take_of_length_le hlen]
    · have hr := checkarg_plural argc name type val h ha
      refine ⟨"s".toList, Or.inr rfl, fun _ _ => rfl, hr, fun hlen => ?_⟩
      rw [hr, List.take_of_length_le hlen]
  · intro hn
    have h8 : "Invalid ".toList.length = 8 := by decide
    have h47 : " command (expected at least 3 arguments, got 2)".toList.length = 47 := by
      decide
    have hsuf : "expected at least 3 arguments, got 2)".toList
        <:+ " command (expected at least 3 arguments, got 2)".toList := by decide
    constructor
    · rw [hex, List.take_of_length_le]
      simp only [List.length_append, h8, h47]
      omega
    · exact List.IsSuffix.trans hsuf (List.suffix_append _ _)

/-- C2 (witness): `checkarg(2, "exit", EXPECTED_AT_LEAST, 3)`. -/
theorem checkarg_violation_result_witness :
    relation_holds .EXPECTED_AT_LEAST 2 3 = false ∧
    ((∃ sfx, (sfx = [] ∨ sfx = "s".toList) ∧ ((2 : Int) ≠ 1 → (3 : Int) ≠ 1 → sfx = "s".toList) ∧
      checkarg 2 "exit".toList .EXPECTED_AT_LEAST 3 = some
        { status := .CMD_INVALID, input := some "exit".toList,
          error := some ((checkarg_text "exit".toList .EXPECTED_AT_LEAST 3 sfx 2).take 255) } ∧
      ((checkarg_text "exit".toList .EXPECTED_AT_LEAST 3 sfx 2).length ≤ 255 →
        checkarg 2 "exit".toList .EXPECTED_AT_LEAST 3 = some
          { status := .CMD_INVALID, input := some "exit".toList,
            error := some (checkarg_text "exit".toList .EXPECTED_AT_LEAST 3 sfx 2) }))
    ∧ checkarg 2 "exit".toList .EXPECTED_AT_LEAST 3 = some
        { status := .CMD_INVALID, input := some "exit".toList,
          error := some (("Invalid ".toList ++ "exit".toList
            ++ " command (expected at least 3 arguments, got 2)".toList).take 255) }
    ∧ ("exit".toList.length ≤ 200 →
        checkarg 2 "exit".toList .EXPECTED_AT_LEAST 3 = some
          { status := .CMD_INVALID, input := some "exit".toList,
            error := some ("Invalid ".toList ++ "exit".toList
              ++ " command (expected at least 3 arguments, got 2)".toList) }
        ∧ "expected at least 3 arguments, got 2)".toList
            <:+ ("Invalid ".toList ++ "exit".toList
              ++ " command (expected at least 3 arguments, got 2)".toList)))
    ∧ checkarg 2 "exit".toList .EXPECTED_AT_LEAST 3 = some
        { status := .CMD_INVALID, input := some "exit".toList,
          error := some "Invalid exit command (expected at least 3 arguments, got 2)".toList }
    ∧ checkarg 1 "exit".toList .EXPECTED_AT_LEAST 1 = none :=
  ⟨by decide, checkarg_violation_result 2 "exit".toList .EXPECTED_AT_LEAST 3 (by decide),
   by decide, by decide⟩

/-- C3: the suffix of `argument` follows the actual count `argc`, not the
threshold `val`: with threshold 2 and one argument the message says
`2 argument`, with threshold 1 and no argument it says `1 arguments`, and the
equal-to message is always plural. -/
theorem checkarg_plural_follows_argc :
    checkarg 1 "exit".toList .EXPECTED_AT_LEAST 2 = some
      { status := .CMD_INVALID, input := some "exit".toList,
        error := some "Invalid exit command (expected at least 2 argument, got 1)".toList }
    ∧ checkarg 0 "exit".toList .EXPECTED_AT_LEAST 1 = some
      { status := .CMD_INVALID, input := some "exit".toList,
        error := some "Invalid exit command (expected at least 1 arguments, got 0)".toList }
    ∧ checkarg 1 "exit".toList .EXPECTED_MORE_THAN 2 = some
      { status := .CMD_INVALID, input := some "exit".toList,
        error := some "Invalid exit command (expected more than 2 argument, got 1)".toList }
    ∧ checkarg 1 "exit".toList .EXPECTED_LESS_THAN 0 = some
      { status := .CMD_INVALID, input := some "exit".toList,
        error := some "Invalid exit command (expected less than 0 argument, got 1)".toList }
    ∧ checkarg 2 "exit".toList .EXPECTED_EQUAL_TO 1 = some
      { status := .CMD_INVALID, input := some "exit".toList,
        error := some "Invalid exit command (expected 1 arguments, got 2)".toList } := by
  decide

/-! ## Handler lookup -/

/-- The comparison `strcasecmp` returns 0 exactly on strings that are equal
ignoring ASCII case. -/
theorem strcasecmp_eq_zero_iff (a b : CStr) :
    strcasecmp a b = 0 ↔ a.map tolower = b.map tolower := by
  induction a generalizing b with
  | nil => cases b <;> simp [strcasecmp]
  | cons x xs ih =>
    cases b with
    | nil => simp [strcasecmp]
    | cons y ys =>
      simp only [strcasecmp, List.map_cons, List.cons.injEq]
      split_ifs with h1 h2
      · simp [h1, ih]
      · simp [h1]
      · simp [h1]

/-- The loop of `bsearch` ends before its fuel does when the fuel exceeds the
width of the interval. -/
theorem bsearch_loop_fuel {α : Type} (key : α) (base : List α) (compar : α → α → Int)
    (fuel l u : Nat) (h : u - l < fuel) :
    bsearch_loop key base compar fuel l u ≠ none := by
  induction fuel generalizing l u with
  | zero => omega
  | succ n ih =>
    unfold bsearch_loop
    split_ifs with hlu
    · simp only
      split
      · simp
      · split_ifs
        · exact ih _ _ (by omega)
        · exact ih _ _ (by omega)
        · simp
    · simp

/-- The lookup in the one-entry table: the `exit` entry when the name compares
equal to `exit`, `NULL` otherwise. -/
theorem find_handler_eq (cmd_exit : sway_cmd) (name : CStr) (block : cmd_status) :
    find_handler cmd_exit name block
      = if name.map tolower = "exit".toList
        then some { command := "exit".toList, handle := some cmd_exit } else none := by
  have hiff := strcasecmp_eq_zero_iff name "exit".toList
  have hex : ("exit".toList).map tolower = "exit".toList := by decide
  rw [hex] at hiff
  simp only [find_handler, bsearch, handlers, List.length_singleton]
  simp only [bsearch_loop, handler_compare]
  generalize "exit".toList = e at hiff ⊢
  by_cases hz : name.map tolower = e
  · have h0 := hiff.mpr hz
    simp [h0, hz]
  · have h0 : strcasecmp name e ≠ 0 := fun h => hz (hiff.mp h)
    rw [if_neg hz]
    rcases lt_or_gt_of_ne h0 with hlt | hgt
    · simp [hlt]
    · have : ¬ strcasecmp name e < 0 := by omega
      simp [this, hgt]

/-- C10: handler lookup is a case-insensitive exact match.  For every name and
block, `find_handler` returns what a linear scan of `handlers` for an entry
equal to the name ignoring ASCII case returns; the result is the `exit` entry
exactly when the name equals `exit` ignoring case and `NULL` exactly when it
does not (`EXIT` and `Exit` resolve, `exi` and `exits` do not); the binary
search ends within its fuel; the table is strictly increasing under
`handler_compare`. -/
theorem find_handler_case_insensitive (cmd_exit : sway_cmd) (name : CStr)
    (block : cmd_status) :
    find_handler cmd_exit name block
        = (handlers cmd_exit).find? (fun h => h.command.map tolower == name.map tolower)
    ∧ (find_handler cmd_exit name block
          = some { command := "exit".toList, handle := some cmd_exit }
        ↔ name.map tolower = "exit".toList)
    ∧ (find_handler cmd_exit name block = none ↔ name.map tolower ≠ "exit".toList)
    ∧ (find_handler cmd_exit "EXIT".toList block).isSome = true
    ∧ (find_handler cmd_exit "Exit".toList block).isSome = true
    ∧ find_handler cmd_exit "exi".toList block = none
    ∧ find_handler cmd_exit "exits".toList block = none
    ∧ bsearch_loop { command := name, handle := none } (handlers cmd_exit) handler_compare
        ((handlers cmd_exit).length + 1) 0 (handlers cmd_exit).length ≠ none
    ∧ (handlers cmd_exit).Pairwise (fun a b => handler_compare a b < 0) := by
  have hex : ("exit".toList).map tolower = "exit".toList := by decide
  refine ⟨?_, ?_, ?_, ?_, ?_, ?_, ?_, ?_, ?_⟩
  · rw [find_handler_eq]
    simp only [handlers, List.find?, hex]
    generalize "exit".toList = e
    by_cases hz : name.map tolower = e
    · rw [if_pos hz, hz, beq_self_eq_true]
    · have : (e == List.map tolower name) = false :=
        beq_eq_false_iff_ne.mpr (fun h => hz h.symm)
      rw [if_neg hz, this]
  · rw [find_handler_eq]
    generalize "exit".toList = e
    split_ifs with hz <;> simp [hz]
  · rw [find_handler_eq]
    generalize "exit".toList = e
    split_ifs with hz <;> simp [hz]
  · rw [find_handler_eq, if_pos (by decide)]; rfl
  · rw [find_handler_eq, if_pos (by decide)]; rfl
  · rw [find_handler_eq, if_neg (by decide)]
  · rw [find_handler_eq, if_neg (by decide)]
  · exact bsearch_loop_fuel _ _ _ _ _ _ (by omega)
  · simp [handlers]

/-! ## The loops of handle_command against the list of commands -/

/-- Dropping the length of the longest prefix that satisfies `p` is `dropWhile`. -/
theorem drop_takeWhile_length {α : Type} (p : α → Bool) (l : List α) :
    l.drop (l.takeWhile p).length = l.dropWhile p := by
  induction l with
  | nil => rfl
  | cons a l ih =>
    simp only [List.takeWhile, List.dropWhile]
    cases p a <;> simp [ih]

/-- The step `s += strspn(s, whitespace)` removes the leading whitespace. -/
theorem drop_strspn (s : CStr) : s.drop (strspn s whitespace) = trim_leading s :=
  drop_takeWhile_length _ s

/-- Trimming does not lengthen a string. -/
theorem trim_leading_length (s : CStr) : (trim_leading s).length ≤ s.length := by
  unfold trim_leading
  exact (List.dropWhile_sublist _).length_le

/-- One call of `argsep` yields the first piece of the split and leaves the
rest of the text. -/
theorem argsep_split (d : Char) (s : CStr) :
    split_on d s = (argsep s [d]).1 ::
      (match (argsep s [d]).2 with
       | none => []
       | some r => split_on d r) := by
  induction s with
  | nil => rfl
  | cons c cs ih =>
    by_cases hc : c = d
    · simp [split_on, argsep, hc]
    · simp only [split_on, argsep, if_neg hc, List.mem_singleton]
      rw [ih]

/-- The text left by `argsep` is shorter than the text it was given. -/
theorem argsep_snd_length (delim : CStr) (s r : CStr) (h : (argsep s delim).2 = some r) :
    r.length < s.length := by
  induction s with
  | nil => simp [argsep] at h
  | cons c cs ih =>
    by_cases hc : c ∈ delim
    · simp only [argsep, if_pos hc, Option.some.injEq] at h
      subst h
      simp
    · simp only [argsep, if_neg hc] at h
      have := ih h
      simp only [List.length_cons]
      omega

/-- The piece returned by `argsep` is not longer than the text. -/
theorem argsep_fst_length (delim : CStr) (s : CStr) :
    (argsep s delim).1.length ≤ s.length := by
  induction s with
  | nil => simp [argsep]
  | cons c cs ih =>
    by_cases hc : c ∈ delim
    · simp [argsep, hc]
    · simp only [argsep, if_neg hc, List.length_cons]
      omega

/-- The result built for an unknown command. -/
theorem cmd_results_new_unknown (cmd : CStr) :
    cmd_results_new .CMD_INVALID (some cmd) (some "Unknown/invalid command".toList)
      = unknown_command cmd := by
  have h : vsnprintf256 "Unknown/invalid command".toList = "Unknown/invalid command".toList := by
    decide
  simp only [cmd_results_new, Option.map, h, unknown_command]

/-- The inner loop, given enough fuel, dispatches the trimmed pieces of
`cmdlist` between commas. -/
theorem command_loop_eq (cmd_exit : sway_cmd) (fuel : Nat) (cmdlist : CStr)
    (st : dispatch_state) (h : cmdlist.length < fuel) :
    command_loop cmd_exit fuel cmdlist st
      = some (run_commands cmd_exit ((split_on ',' cmdlist).map trim_leading) st) := by
  induction fuel generalizing cmdlist st with
  | zero => omega
  | succ n ih =>
    have hc : ",".toList = [','] := rfl
    rw [argsep_split]
    simp only [command_loop, hc, drop_strspn, cmd_results_new_unknown]
    generalize hA : argsep cmdlist [','] = a
    have hlen : ∀ r, a.2 = some r → r.length < n := by
      intro r hr
      have := argsep_snd_length [','] cmdlist r (by rw [hA]; exact hr)
      omega
    by_cases he : trim_leading a.1 = []
    · rw [if_pos he]
      simp only [List.map_cons, run_commands, unresolved, he, command_log]
      cases h2 : a.2 with
      | none => simp [run_commands]
      | some r => simp [ih r _ (hlen r h2)]
    · rw [if_neg he]
      simp only [List.map_cons, run_commands, unresolved, he, command_log, command_name]
      cases hf : find_handler cmd_exit (List.headD (prepare_argv (trim_leading a.1)) [])
          cmd_status.CMD_BLOCK_END with
      | none => simp [he]
      | some hd =>
        cases h2 : a.2 with
        | none => simp [run_commands]
        | some r => simp [ih r _ (hlen r h2)]

/-- Dispatching two lists in a row: the second list is reached only when the
first one ended without an unresolved command. -/
theorem run_commands_append (cmd_exit : sway_cmd) (xs ys : List CStr) (st : dispatch_state) :
    run_commands cmd_exit (xs ++ ys) st
      = if (run_commands cmd_exit xs st).1 = true then run_commands cmd_exit xs st
        else run_commands cmd_exit ys (run_commands cmd_exit xs st).2 := by
  induction xs generalizing st with
  | nil => simp [run_commands]
  | cons x xs ih =>
    simp only [List.cons_append, run_commands]
    by_cases hu : unresolved cmd_exit x = true
    · simp [hu]
    · simp only [hu, if_false, Bool.false_eq_true]
      exact ih _

/-- The outer loop, given enough fuel for itself and for the inner loop,
dispatches the commands of the text. -/
theorem cmdlist_loop_eq (cmd_exit : sway_cmd) (n fuel : Nat) (head : CStr)
    (st : dispatch_state) (h : head.length < fuel) (hn : head.length < n) :
    cmdlist_loop cmd_exit n fuel head st
      = some (run_commands cmd_exit (commands head) st).2 := by
  induction fuel generalizing head st with
  | zero => omega
  | succ k ih =>
    have hc : ";".toList = [';'] := rfl
    unfold commands
    rw [argsep_split]
    simp only [cmdlist_loop, hc, drop_strspn, List.flatMap_cons]
    generalize hA : argsep head [';'] = a
    have hfst : (trim_leading a.1).length < n := by
      have h1 := trim_leading_length a.1
      have h2 := argsep_fst_length [';'] head
      rw [hA] at h2
      omega
    have hlen : ∀ r, a.2 = some r → r.length < k ∧ r.length < n := by
      intro r hr
      have := argsep_snd_length [';'] head r (by rw [hA]; exact hr)
      omega
    rw [command_loop_eq cmd_exit n _ st hfst, run_commands_append]
    generalize run_commands cmd_exit (List.map trim_leading (split_on ',' (trim_leading a.1))) st
      = res
    obtain ⟨flag, st1⟩ := res
    cases flag with
    | true => simp
    | false =>
      cases h2 : a.2 with
      | none => simp [run_commands]
      | some r =>
        have := ih r st1 (hlen r h2).1 (hlen r h2).2
        simp only [commands] at this
        simp [this]

/-- The function `handle_command` never runs out of fuel: it returns the final
state of the dispatch of the commands of the line. -/
theorem handle_command_run_eq (cmd_exit : sway_cmd) (line : CStr) :
    handle_command_run cmd_exit line
      = some (finish (run_commands cmd_exit (commands line) { results := none, log := [] }).2) := by
  unfold handle_command_run
  simp only
  rw [cmdlist_loop_eq cmd_exit _ _ line _ (by omega) (by omega)]
  simp only [finish]
  split <;> simp_all

/-- When no command of the list is unresolved, the dispatch logs every command
and leaves `results` as it was. -/
theorem run_commands_resolved (cmd_exit : sway_cmd) (cmds : List CStr) (st : dispatch_state)
    (h : ∀ c ∈ cmds, unresolved cmd_exit c = false) :
    run_commands cmd_exit cmds st
      = (false, { results := st.results, log := st.log ++ cmds.flatMap command_log }) := by
  induction cmds generalizing st with
  | nil => simp [run_commands]
  | cons c cs ih =>
    have hc := h c (List.mem_cons_self _ _)
    simp only [run_commands, hc, Bool.false_eq_true, if_false, List.flatMap_cons]
    rw [ih _ (fun x hx => h x (List.mem_cons_of_mem _ hx))]
    simp [List.append_assoc]

/-- The dispatch stops at the first unresolved command with its result; the
log holds the commands up to that one. -/
theorem run_commands_unresolved (cmd_exit : sway_cmd) (pre : List CStr) (cmd : CStr)
    (post : List CStr) (st : dispatch_state)
    (hpre : ∀ c ∈ pre, unresolved cmd_exit c = false) (hcmd : unresolved cmd_exit cmd = true) :
    run_commands cmd_exit (pre ++ cmd :: post) st
      = (true, { results := some (unknown_command cmd),
                 log := st.log ++ (pre.flatMap command_log ++ command_log cmd) }) := by
  rw [run_commands_append, run_commands_resolved cmd_exit pre st hpre]
  simp [run_commands, hcmd, List.append_assoc]

/-- A list with an unresolved command splits at its first unresolved command. -/
theorem first_unresolved (cmd_exit : sway_cmd) (cmds : List CStr)
    (h : ∃ c ∈ cmds, unresolved cmd_exit c = true) :
    ∃ pre cmd post, cmds = pre ++ cmd :: post
      ∧ (∀ c ∈ pre, unresolved cmd_exit c = false) ∧ unresolved cmd_exit cmd = true := by
  induction cmds with
  | nil => simp at h
  | cons x xs ih =>
    by_cases hx : unresolved cmd_exit x = true
    · exact ⟨[], x, xs, rfl, by simp, hx⟩
    · obtain ⟨c, hc, hu⟩ := h
      have hc' : c ∈ xs := by
        rcases List.mem_cons.mp hc with rfl | hin
        · exact absurd hu hx
        · exact hin
      obtain ⟨pre, cmd, post, he, hp, hcmd⟩ := ih ⟨c, hc', hu⟩
      refine ⟨x :: pre, cmd, post, by simp [he], ?_, hcmd⟩
      intro y hy
      rcases List.mem_cons.mp hy with rfl | hin
      · simpa using hx
      · exact hp y hin

/-! ## The commands of a line and of its extensions -/

/-- A split has at least one piece. -/
theorem split_on_ne_nil (d : Char) (s : CStr) : split_on d s ≠ [] := by
  cases s with
  | nil => simp [split_on]
  | cons c cs =>
    by_cases hc : c = d
    · simp [split_on, hc]
    · simp only [split_on, if_neg hc]
      split <;> simp

/-- The characters of a piece are characters of the text other than the
separator. -/
theorem split_on_mem (d : Char) (s : CStr) (p : CStr) (x : Char)
    (hp : p ∈ split_on d s) (hx : x ∈ p) : x ∈ s ∧ x ≠ d := by
  induction s generalizing p with
  | nil =>
    simp only [split_on, List.mem_singleton] at hp
    subst hp
    simp at hx
  | cons c cs ih =>
    by_cases hc : c = d
    · simp only [split_on, if_pos hc, List.mem_cons] at hp
      rcases hp with rfl | hp
      · simp at hx
      · exact ⟨List.mem_cons_of_mem _ (ih p hp hx).1, (ih p hp hx).2⟩
    · simp only [split_on, if_neg hc] at hp
      cases hs : split_on d cs with
      | nil => exact absurd hs (split_on_ne_nil d cs)
      | cons q qs =>
        rw [hs] at hp ih
        simp only [List.mem_cons] at hp
        rcases hp with rfl | hp
        · rcases List.mem_cons.mp hx with rfl | hxq
          · exact ⟨List.mem_cons_self _ _, hc⟩
          · have := ih q (List.mem_cons_self _ _) hxq
            exact ⟨List.mem_cons_of_mem _ this.1, this.2⟩
        · have := ih p (List.mem_cons_of_mem _ hp) hx
          exact ⟨List.mem_cons_of_mem _ this.1, this.2⟩

/-- The split of a text is its pieces but the last, then the last piece; the
split of an extension of the text glues the first piece of the extension to
that last piece. -/
theorem split_on_snoc (d : Char) (a : CStr) :
    ∃ init last, split_on d a = init ++ [last] ∧
      ∀ b h t, split_on d b = h :: t → split_on d (a ++ b) = init ++ (last ++ h) :: t := by
  induction a with
  | nil => exact ⟨[], [], rfl, fun b h t hb => by simpa using hb⟩
  | cons c cs ih =>
    obtain ⟨init, last, hs, hext⟩ := ih
    by_cases hc : c = d
    · refine ⟨[] :: init, last, by simp [split_on, hc, hs], ?_⟩
      intro b h t hb
      simp [split_on, hc, hext b h t hb]
    · cases init with
      | nil =>
        refine ⟨[], c :: last, by simp [split_on, hc, hs], ?_⟩
        intro b h t hb
        simp [split_on, hc, hext b h t hb]
      | cons i is =>
        refine ⟨(c :: i) :: is, last, by simp [split_on, hc, hs], ?_⟩
        intro b h t hb
        simp [split_on, hc, hext b h t hb]

/-- Leading whitespace is removed up to the first character that is not
whitespace. -/
theorem trim_leading_append (l r : CStr) (x : Char) (hx : x ∉ whitespace) :
    trim_leading (l ++ x :: r) = trim_leading l ++ x :: r := by
  induction l with
  | nil => simp [trim_leading, List.dropWhile, hx]
  | cons c cs ih =>
    simp only [trim_leading, List.cons_append, List.dropWhile] at ih ⊢
    by_cases hc : c ∈ whitespace
    · simp [hc, ih]
    · simp [hc]

/-- The commands of a line are the first commands of every line that extends
it by a separator and further text. -/
theorem commands_prefix (a b : CStr) (sep : Char) (hsep : sep = ';' ∨ sep = ',') :
    ∃ more, commands (a ++ sep :: b) = commands a ++ more := by
  obtain ⟨init, last, hs, hext⟩ := split_on_snoc ';' a
  rcases hsep with rfl | rfl
  · refine ⟨commands b, ?_⟩
    have h1 : split_on ';' (';' :: b) = [] :: split_on ';' b := by simp [split_on]
    simp only [commands, hext _ _ _ h1, hs, List.append_nil]
    simp [List.flatMap_append]
  · cases hb : split_on ';' b with
    | nil => exact absurd hb (split_on_ne_nil ';' b)
    | cons p ps =>
      have hne : ',' ≠ ';' := by decide
      have h1 : split_on ';' (',' :: b) = (',' :: p) :: ps := by
        simp [split_on, hne, hb]
      have hws : ',' ∉ whitespace := by decide
      obtain ⟨init2, last2, hs2, hext2⟩ := split_on_snoc ',' (trim_leading last)
      have h2 : split_on ',' (',' :: p) = [] :: split_on ',' p := by simp [split_on]
      refine ⟨(split_on ',' p).map trim_leading
        ++ ps.flatMap (fun cmdlist => (split_on ',' (trim_leading cmdlist)).map trim_leading), ?_⟩
      simp only [commands, hext _ _ _ h1, hs]
      simp only [List.flatMap_append, List.flatMap_cons, List.flatMap_nil, List.append_nil,
        trim_leading_append last p ',' hws, hext2 _ _ _ h2, hs2, List.map_append,
        List.map_cons, List.map_nil, List.append_assoc, List.singleton_append,
        List.cons_append, List.nil_append]

/-- A line made of separators and whitespace has only empty commands. -/
theorem commands_blank (line : CStr)
    (h : ∀ ch ∈ line, ch = ';' ∨ ch = ',' ∨ ch ∈ whitespace) :
    ∀ c ∈ commands line, c = [] := by
  intro c hc
  simp only [commands, List.mem_flatMap, List.mem_map] at hc
  obtain ⟨p, hp, q, hq, rfl⟩ := hc
  simp only [trim_leading, List.dropWhile_eq_nil_iff, decide_eq_true_eq]
  intro x hx
  have h1 := split_on_mem ',' _ q x hq hx
  have h2 : x ∈ p := (List.dropWhile_sublist _).subset h1.1
  have h3 := split_on_mem ';' line p x hp h2
  rcases h x h3.1 with h4 | h4 | h4
  · exact absurd h4 h3.2
  · exact absurd h4 h1.2
  · exact h4

/-- The log of a list of empty commands. -/
theorem command_log_blank (cmds : List CStr) (h : ∀ c ∈ cmds, c = []) :
    cmds.flatMap command_log = List.replicate cmds.length log_event.ignoring_empty := by
  induction cmds with
  | nil => rfl
  | cons c cs ih =>
    have hc := h c (List.mem_cons_self _ _)
    subst hc
    simp only [List.flatMap_cons, List.length_cons, List.replicate_succ]
    rw [ih (fun x hx => h x (List.mem_cons_of_mem _ hx))]
    simp [command_log]

/-- Whether a command is unresolved does not depend on the handler function in
the table. -/
theorem unresolved_handler_irrelevant (h1 h2 : sway_cmd) (cmd : CStr) :
    unresolved h1 cmd = unresolved h2 cmd := by
  simp only [unresolved, find_handler_eq]
  split_ifs <;> rfl

/-- The dispatch does not depend on the handler function in the table. -/
theorem run_commands_handler_irrelevant (h1 h2 : sway_cmd) (cmds : List CStr)
    (st : dispatch_state) : run_commands h1 cmds st = run_commands h2 cmds st := by
  induction cmds generalizing st with
  | nil => rfl
  | cons c cs ih =>
    simp only [run_commands, unresolved_handler_irrelevant h1 h2 c, ih]

/-- A command is resolved when it is empty or its name is `exit` ignoring case. -/
theorem unresolved_eq_false_iff (cmd_exit : sway_cmd) (cmd : CStr) :
    unresolved cmd_exit cmd = false
      ↔ cmd = [] ∨ (command_name cmd).map tolower = "exit".toList := by
  simp only [unresolved, find_handler_eq]
  generalize "exit".toList = e
  by_cases h1 : cmd = []
  · simp [h1]
  · by_cases h2 : List.map tolower (command_name cmd) = e
    · simp [h1, h2]
    · simp [h1, h2]

/-! ## handle_command -/

/-- C4: when some command of the line is not empty and its name does not
resolve to a handler, `handle_command` returns status `CMD_INVALID`, as input
the first such command in left-to-right order and the error
`Unknown/invalid command`; the log holds the commands up to that one and none
after it, and result and log are the same for every line that continues this
one after a further `;` or `,`. -/
theorem handle_command_unknown (cmd_exit : sway_cmd) (line : CStr)
    (h : ∃ c ∈ commands line, unresolved cmd_exit c = true) :
    ∃ pre cmd post, commands line = pre ++ cmd :: post
      ∧ (∀ c ∈ pre, unresolved cmd_exit c = false) ∧ unresolved cmd_exit cmd = true
      ∧ handle_command cmd_exit line = some
          { status := .CMD_INVALID, input := some cmd,
            error := some "Unknown/invalid command".toList }
      ∧ handle_command_run cmd_exit line
          = some (unknown_command cmd, pre.flatMap command_log ++ command_log cmd)
      ∧ ∀ sep rest, sep = ';' ∨ sep = ',' →
          handle_command_run cmd_exit (line ++ sep :: rest) = handle_command_run cmd_exit line := by
  obtain ⟨pre, cmd, post, hsplit, hpre, hcmd⟩ := first_unresolved cmd_exit (commands line) h
  have hrun : ∀ l : CStr, ∀ post2, commands l = pre ++ cmd :: post2 →
      handle_command_run cmd_exit l
        = some (unknown_command cmd, pre.flatMap command_log ++ command_log cmd) := by
    intro l post2 hl
    rw [handle_command_run_eq, hl, run_commands_unresolved cmd_exit pre cmd post2 _ hpre hcmd]
    simp [finish]
  refine ⟨pre, cmd, post, hsplit, hpre, hcmd, ?_, hrun line post hsplit, ?_⟩
  · simp only [handle_command, hrun line post hsplit, Option.map, unknown_command]
  · intro sep rest hsep
    obtain ⟨more, hmore⟩ := commands_prefix line rest sep hsep
    rw [hrun line post hsplit]
    exact hrun _ (post ++ more) (by rw [hmore, hsplit]; simp)

/-- C4 (witness): the lines `bogus` and `exit; bogus arg, exit`. -/
theorem handle_command_unknown_witness :
    (∃ c ∈ commands "bogus".toList, unresolved sample_exit c = true)
    ∧ (∃ pre cmd post, commands "bogus".toList = pre ++ cmd :: post
      ∧ (∀ c ∈ pre, unresolved sample_exit c = false) ∧ unresolved sample_exit cmd = true
      ∧ handle_command sample_exit "bogus".toList = some
          { status := .CMD_INVALID, input := some cmd,
            error := some "Unknown/invalid command".toList }
      ∧ handle_command_run sample_exit "bogus".toList
          = some (unknown_command cmd, pre.flatMap command_log ++ command_log cmd)
      ∧ ∀ sep rest, sep = ';' ∨ sep = ',' →
          handle_command_run sample_exit ("bogus".toList ++ sep :: rest)
            = handle_command_run sample_exit "bogus".toList)
    ∧ handle_command sample_exit "bogus".toList = some
        { status := .CMD_INVALID, input := some "bogus".toList,
          error := some "Unknown/invalid command".toList }
    ∧ handle_command_run sample_exit "exit; nope 1, exit; other".toList = some
        ({ status := .CMD_INVALID, input := some "nope 1".toList,
           error := some "Unknown/invalid command".toList },
         [log_event.handling "exit".toList, log_event.find_handler "exit".toList,
          log_event.handling "nope 1".toList, log_event.find_handler "nope".toList]) :=
  ⟨⟨"bogus".toList, by decide, by decide⟩,
   handle_command_unknown sample_exit "bogus".toList ⟨"bogus".toList, by decide, by decide⟩,
   by decide, by decide⟩

/-- C5: when the name of every command of the line that is not empty equals
`exit` ignoring case, `handle_command` returns status `CMD_SUCCESS` with no
input and no error, after logging every command of the line. -/
theorem handle_command_all_known (cmd_exit : sway_cmd) (line : CStr)
    (h : ∀ c ∈ commands line, c ≠ [] → (command_name c).map tolower = "exit".toList) :
    handle_command cmd_exit line
        = some { status := .CMD_SUCCESS, input := none, error := none }
    ∧ handle_command_run cmd_exit line
        = some ({ status := .CMD_SUCCESS, input := none, error := none },
            (commands line).flatMap command_log) := by
  have hres : ∀ c ∈ commands line, unresolved cmd_exit c = false := by
    intro c hc
    rw [unresolved_eq_false_iff]
    by_cases he : c = []
    · exact Or.inl he
    · exact Or.inr (h c hc he)
  have hrun : handle_command_run cmd_exit line
      = some ({ status := .CMD_SUCCESS, input := none, error := none },
          (commands line).flatMap command_log) := by
    rw [handle_command_run_eq, run_commands_resolved cmd_exit _ _ hres]
    simp [finish, cmd_results_new]
  exact ⟨by simp only [handle_command, hrun, Option.map], hrun⟩

/-- C5 (witness): three groups of known commands, with empty commands between. -/
theorem handle_command_all_known_witness :
    (∀ c ∈ commands "exit; EXIT now , Exit;;exit".toList,
        c ≠ [] → (command_name c).map tolower = "exit".toList)
    ∧ (handle_command sample_exit "exit; EXIT now , Exit;;exit".toList
        = some { status := .CMD_SUCCESS, input := none, error := none }
      ∧ handle_command_run sample_exit "exit; EXIT now , Exit;;exit".toList
        = some ({ status := .CMD_SUCCESS, input := none, error := none },
            (commands "exit; EXIT now , Exit;;exit".toList).flatMap command_log)) :=
  ⟨by decide, handle_command_all_known sample_exit "exit; EXIT now , Exit;;exit".toList (by decide)⟩

/-- C6: `handle_command` looks the handler up and never calls it.  Result and
log of every line are the same whatever handler function the table holds; the
line `exit` resolves to the entry of `exit`, and yet a handler that reports a
failure leaves the line with the synthetic success. -/
theorem handle_command_never_calls_handler (cmd_exit : sway_cmd) (line : CStr) :
    handle_command_run cmd_exit line = handle_command_run sample_exit line
    ∧ find_handler sample_exit "exit".toList .CMD_BLOCK_END
        = some { command := "exit".toList, handle := some sample_exit }
    ∧ sample_exit 1 ["exit".toList]
        = some { status := .CMD_FAILURE, input := some "exit".toList,
                 error := some "refused".toList }
    ∧ handle_command_run sample_exit "exit".toList
        = some ({ status := .CMD_SUCCESS, input := none, error := none },
            [log_event.handling "exit".toList, log_event.find_handler "exit".toList]) := by
  refine ⟨?_, ?_, rfl, by decide⟩
  · rw [handle_command_run_eq, handle_command_run_eq,
      run_commands_handler_irrelevant cmd_exit sample_exit]
  · rw [find_handler_eq, if_pos (by decide)]

/-- C7: a line whose commands are all empty (in particular a line made only of
`;`, `,` and whitespace, and the empty line) yields `CMD_SUCCESS` with no
input and no error; the log holds one `Ignoring empty command.` per command
and neither a handled command nor a handler lookup. -/
theorem handle_command_empty_commands (cmd_exit : sway_cmd) (line : CStr)
    (h : (∀ c ∈ commands line, c = [])
      ∨ (∀ ch ∈ line, ch = ';' ∨ ch = ',' ∨ ch ∈ whitespace)) :
    (∀ c ∈ commands line, c = [])
    ∧ handle_command cmd_exit line
        = some { status := .CMD_SUCCESS, input := none, error := none }
    ∧ handle_command_run cmd_exit line
        = some ({ status := .CMD_SUCCESS, input := none, error := none },
            List.replicate (commands line).length log_event.ignoring_empty) := by
  have hall : ∀ c ∈ commands line, c = [] := by
    rcases h with h | h
    · exact h
    · exact commands_blank line h
  have hres : ∀ c ∈ commands line, unresolved cmd_exit c = false := by
    intro c hc
    rw [unresolved_eq_false_iff]
    exact Or.inl (hall c hc)
  have hrun : handle_command_run cmd_exit line
      = some ({ status := .CMD_SUCCESS, input := none, error := none },
          List.replicate (commands line).length log_event.ignoring_empty) := by
    rw [handle_command_run_eq, run_commands_resolved cmd_exit _ _ hres,
      command_log_blank _ hall]
    simp [finish, cmd_results_new]
  exact ⟨hall, by simp only [handle_command, hrun, Option.map], hrun⟩

/-- C7 (witness): the empty line and the line ` ;, ; `. -/
theorem handle_command_empty_commands_witness :
    ((∀ c ∈ commands [], c = [])
      ∨ (∀ ch ∈ ([] : CStr), ch = ';' ∨ ch = ',' ∨ ch ∈ whitespace))
    ∧ ((∀ c ∈ commands [], c = [])
      ∧ handle_command sample_exit []
          = some { status := .CMD_SUCCESS, input := none, error := none }
      ∧ handle_command_run sample_exit []
          = some ({ status := .CMD_SUCCESS, input := none, error := none },
              List.replicate (commands []).length log_event.ignoring_empty))
    ∧ ((∀ c ∈ commands " ;, ; ".toList, c = [])
      ∨ (∀ ch ∈ " ;, ; ".toList, ch = ';' ∨ ch = ',' ∨ ch ∈ whitespace))
    ∧ ((∀ c ∈ commands " ;, ; ".toList, c = [])
      ∧ handle_command sample_exit " ;, ; ".toList
          = some { status := .CMD_SUCCESS, input := none, error := none }
      ∧ handle_command_run sample_exit " ;, ; ".toList
          = some ({ status := .CMD_SUCCESS, input := none, error := none },
              List.replicate (commands " ;, ; ".toList).length log_event.ignoring_empty))
    ∧ handle_command_run sample_exit [] = some (line_success, [log_event.ignoring_empty]) :=
  ⟨Or.inr (by decide), handle_command_empty_commands sample_exit [] (Or.inr (by decide)),
   Or.inr (by decide),
   handle_command_empty_commands sample_exit " ;, ; ".toList (Or.inr (by decide)),
   by decide⟩

/-! ## add_color -/

/-- The test `isxdigit` accepts exactly the 22 hexadecimal digits. -/
theorem isxdigit_iff (c : Char) : isxdigit c = true ↔ c ∈ hex_digits := by
  constructor
  · intro h
    have hc : c = Char.ofNat c.toNat := (Char.ofNat_toNat c).symm
    simp only [isxdigit, Bool.or_eq_true, Bool.and_eq_true, decide_eq_true_eq] at h
    generalize c.toNat = n at h hc
    subst hc
    have hn : n ≤ 102 := by omega
    have hn0 : 48 ≤ n := by omega
    interval_cases n <;> first | (exfalso; omega) | decide
  · intro h
    have hall : ∀ x ∈ hex_digits, isxdigit x = true := by decide
    exact hall c h

/-- A hexadecimal digit is not the NUL character. -/
theorem isxdigit_ne_nul (c : Char) (h : isxdigit c = true) : c ≠ Char.ofNat 0 := by
  intro hc
  subst hc
  exact absurd h (by decide)

/-- The three tests of `add_color` are the well-formedness of the colour. -/
theorem valid_color_iff (color : CStr) :
    valid_color color = true
      ↔ ¬ (color.length ≠ 7 ∧ color.length ≠ 9) ∧ ¬ (color.head? ≠ some '#')
          ∧ (color.drop 1).all isxdigit = true := by
  have hx : ∀ l : CStr, l.all (fun c => decide (c ∈ hex_digits)) = l.all isxdigit := by
    intro l
    induction l with
    | nil => rfl
    | cons a l ih =>
      simp only [List.all_cons, ih]
      congr 1
      by_cases ha : a ∈ hex_digits
      · simp [ha, (isxdigit_iff a).mpr ha]
      · have : isxdigit a = false := by
          cases hb : isxdigit a
          · rfl
          · exact absurd ((isxdigit_iff a).mp hb) ha
        simp [ha, this]
  simp only [valid_color, hx, Bool.and_eq_true, Bool.or_eq_true, decide_eq_true_eq]
  constructor
  · rintro ⟨⟨h1, h2⟩, h3⟩
    exact ⟨by omega, by simp [h2], h3⟩
  · rintro ⟨h1, h2, h3⟩
    exact ⟨⟨by omega, by simpa using h2⟩, h3⟩

/-- For a string shorter than 2^31 bytes `int len = strlen(color)` is exact. -/
theorem int_of_size_of_lt (n : Nat) (h : n < 2147483648) : int_of_size n = n := by
  unfold int_of_size
  omega

/-- A colour shorter than 2^31 bytes is read whole. -/
theorem color_seen_of_lt (color : CStr) (h : color.length < 2147483648) :
    color_seen color = color := by
  unfold color_seen
  rw [int_of_size_of_lt _ h]
  exact List.take_of_length_le (by simp)

/-- The number of characters read is 7 or 9 exactly when `len` is. -/
theorem color_seen_length (color : CStr) :
    ((color_seen color).length = 7 ↔ int_of_size color.length = 7)
    ∧ ((color_seen color).length = 9 ↔ int_of_size color.length = 9) := by
  unfold color_seen
  rw [List.length_take]
  generalize color.length = n
  unfold int_of_size
  omega

/-- The call `strncpy(dest, src, n)` reads the first `n` bytes of `src` only. -/
theorem strncpy_take (dest : List Char) (src : CStr) (n : Nat) :
    strncpy dest src n = strncpy dest (src.take n) n := by
  induction n generalizing dest src with
  | zero => cases dest <;> cases src <;> rfl
  | succ k ih =>
    cases dest with
    | nil => cases src <;> rfl
    | cons d ds =>
      cases src with
      | nil => rfl
      | cons c cs =>
        simp only [strncpy, List.take_succ_cons]
        rw [ih]

/-- The three tests of `add_color` on a colour are the well-formedness of the
characters it reads. -/
theorem valid_color_seen_iff (color : CStr) :
    valid_color (color_seen color) = true
      ↔ ¬ (int_of_size color.length ≠ 7 ∧ int_of_size color.length ≠ 9)
          ∧ ¬ (color.head? ≠ some '#')
          ∧ ((color.take (int_of_size color.length).toNat).drop 1).all isxdigit = true := by
  have hl := color_seen_length color
  have hhead : ¬ (int_of_size color.length ≠ 7 ∧ int_of_size color.length ≠ 9) →
      (color_seen color).head? = color.head? := by
    intro h
    have hpos : 0 < (int_of_size color.length).toNat := by omega
    unfold color_seen
    cases color with
    | nil => simp
    | cons c cs =>
      obtain ⟨k, hk⟩ : ∃ k, (int_of_size (c :: cs).length).toNat = k + 1 :=
        ⟨(int_of_size (c :: cs).length).toNat - 1, by omega⟩
      rw [hk]
      rfl
  rw [valid_color_iff]
  constructor
  · rintro ⟨h1, h2, h3⟩
    have h1' : ¬ (int_of_size color.length ≠ 7 ∧ int_of_size color.length ≠ 9) := by
      intro h
      apply h1
      exact ⟨fun h7 => h.1 (hl.1.mp h7), fun h9 => h.2 (hl.2.mp h9)⟩
    rw [hhead h1'] at h2
    exact ⟨h1', h2, h3⟩
  · rintro ⟨h1, h2, h3⟩
    refine ⟨?_, by rw [hhead h1]; exact h2, h3⟩
    intro h
    apply h1
    exact ⟨fun h7 => h.1 (hl.1.mpr h7), fun h9 => h.2 (hl.2.mpr h9)⟩

/-- The function `add_color` by cases on the well-formedness of the characters
it reads: when they are a well-formed colour they are copied to the buffer,
otherwise the buffer is left alone and the error result is returned. -/
theorem add_color_eq (name : CStr) (buffer : List Char) (color : CStr) :
    add_color name buffer color
      = if valid_color (color_seen color) = true then
          (none, ((if (color_seen color).length = 7
              then ((strncpy buffer (color_seen color) (color_seen color).length).set 7
                'f').set 8 'f'
              else strncpy buffer (color_seen color) (color_seen color).length).set 9
                (Char.ofNat 0)))
        else
          (some { status := .CMD_INVALID, input := some name,
                  error := some ((color_text color).take 255) }, buffer) := by
  have hv := valid_color_seen_iff color
  have hl := color_seen_length color
  unfold add_color
  simp only [cmd_results_new, vsnprintf256, Option.map, color_text]
  by_cases h1 : int_of_size color.length ≠ 7 ∧ int_of_size color.length ≠ 9
  · have : ¬ valid_color (color_seen color) = true := fun h => (hv.mp h).1 h1
    rw [if_pos h1, if_neg this]
  · rw [if_neg h1]
    by_cases h2 : color.head? ≠ some '#'
    · have : ¬ valid_color (color_seen color) = true := fun h => (hv.mp h).2.1 h2
      rw [if_pos h2, if_neg this]
    · rw [if_neg h2]
      by_cases h3 : ((color.take (int_of_size color.length).toNat).drop 1).all isxdigit = true
      · have hvt : valid_color (color_seen color) = true := hv.mpr ⟨h1, h2, h3⟩
        have hlen : (color_seen color).length = (int_of_size color.length).toNat := by
          have h79 : (color_seen color).length = 7 ∨ (color_seen color).length = 9 := by
            have := ((valid_color_iff _).mp hvt).1
            omega
          omega
        have hcopy : strncpy buffer color (int_of_size color.length).toNat
            = strncpy buffer (color_seen color) (color_seen color).length := by
          rw [hlen, strncpy_take]
          rfl
        have h7 : (int_of_size color.length = 7) = ((color_seen color).length = 7) :=
          propext hl.1.symm
        rw [h3, if_pos hvt, hcopy]
        simp only [Bool.not_true, Bool.false_eq_true, if_false, h7]
      · have : ¬ valid_color (color_seen color) = true := fun h => h3 (hv.mp h).2.2
        have h3f : ((color.take (int_of_size color.length).toNat).drop 1).all isxdigit
            = false := Bool.eq_false_iff.mpr h3
        rw [h3f, if_neg this]
        simp only [Bool.not_false, if_true]

/-- A colour shorter than 2^31 bytes whose length is neither 7 nor 9 is not
accepted. -/
theorem not_valid_of_length (color : CStr) (h : color.length < 2147483648)
    (h7 : color.length ≠ 7) (h9 : color.length ≠ 9) :
    ¬ valid_color (color_seen color) = true := by
  intro hv
  rw [color_seen_of_lt color h] at hv
  have := ((valid_color_iff _).mp hv).1
  omega

/-- A list of length 7 spelled out. -/
theorem length_seven (l : CStr) (h : l.length = 7) :
    ∃ a b c d e f g, l = [a, b, c, d, e, f, g] :=
  match l, h with
  | [a, b, c, d, e, f, g], _ => ⟨a, b, c, d, e, f, g, rfl⟩

/-- A list of length 9 spelled out. -/
theorem length_nine (l : CStr) (h : l.length = 9) :
    ∃ a b c d e f g i j, l = [a, b, c, d, e, f, g, i, j] :=
  match l, h with
  | [a, b, c, d, e, f, g, i, j], _ => ⟨a, b, c, d, e, f, g, i, j, rfl⟩

/-- A buffer of at least 10 bytes spelled out. -/
theorem length_ten_le (l : List Char) (h : 10 ≤ l.length) :
    ∃ b0 b1 b2 b3 b4 b5 b6 b7 b8 b9 rest, l = b0 :: b1 :: b2 :: b3 :: b4 :: b5 :: b6 :: b7
      :: b8 :: b9 :: rest :=
  match l, h with
  | b0 :: b1 :: b2 :: b3 :: b4 :: b5 :: b6 :: b7 :: b8 :: b9 :: rest, _ =>
    ⟨b0, b1, b2, b3, b4, b5, b6, b7, b8, b9, rest, rfl⟩

/-- The buffer after `add_color` has accepted a colour, for a buffer of at
least 10 bytes: the string in it is the characters read, followed by `ff` when
they are 7; it has 9 characters, byte 9 is the terminator and the bytes after
it are untouched. -/
theorem add_color_buffer (name : CStr) (buffer : List Char) (color : CStr)
    (hbuf : 10 ≤ buffer.length) (hv : valid_color (color_seen color) = true) :
    cstr_of (add_color name buffer color).2
        = (if (color_seen color).length = 7 then color_seen color ++ "ff".toList
           else color_seen color)
    ∧ (cstr_of (add_color name buffer color).2).length = 9
    ∧ (add_color name buffer color).2.get? 9 = some (Char.ofNat 0)
    ∧ (add_color name buffer color).2.drop 10 = buffer.drop 10
    ∧ (add_color name buffer color).2.length = buffer.length := by
  rw [add_color_eq, if_pos hv]
  generalize color_seen color = p at hv ⊢
  obtain ⟨hlen, hhead, hhex⟩ := (valid_color_iff p).mp hv
  obtain ⟨b0, b1, b2, b3, b4, b5, b6, b7, b8, b9, rest, rfl⟩ := length_ten_le buffer hbuf
  have hff : "ff".toList = ['f', 'f'] := rfl
  have hf0 : ('f' : Char) ≠ Char.ofNat 0 := by decide
  by_cases h7 : p.length = 7
  · obtain ⟨c0, c1, c2, c3, c4, c5, c6, rfl⟩ := length_seven p h7
    simp only [List.drop_succ_cons, List.drop_zero, List.all_cons, List.all_nil,
      Bool.and_true, Bool.and_eq_true] at hhex
    obtain ⟨x1, x2, x3, x4, x5, x6⟩ := hhex
    have n0 : c0 ≠ Char.ofNat 0 := by
      have : c0 = '#' := by simpa using hhead
      rw [this]; decide
    have n1 := isxdigit_ne_nul _ x1
    have n2 := isxdigit_ne_nul _ x2
    have n3 := isxdigit_ne_nul _ x3
    have n4 := isxdigit_ne_nul _ x4
    have n5 := isxdigit_ne_nul _ x5
    have n6 := isxdigit_ne_nul _ x6
    simp [strncpy, cstr_of, List.takeWhile, n0, n1, n2, n3, n4, n5, n6, hff, hf0]
  · have h9 : p.length = 9 := by omega
    obtain ⟨c0, c1, c2, c3, c4, c5, c6, c7, c8, rfl⟩ := length_nine p h9
    simp only [List.drop_succ_cons, List.drop_zero, List.all_cons, List.all_nil,
      Bool.and_true, Bool.and_eq_true] at hhex
    obtain ⟨x1, x2, x3, x4, x5, x6, x7, x8⟩ := hhex
    have n0 : c0 ≠ Char.ofNat 0 := by
      have : c0 = '#' := by simpa using hhead
      rw [this]; decide
    have n1 := isxdigit_ne_nul _ x1
    have n2 := isxdigit_ne_nul _ x2
    have n3 := isxdigit_ne_nul _ x3
    have n4 := isxdigit_ne_nul _ x4
    have n5 := isxdigit_ne_nul _ x5
    have n6 := isxdigit_ne_nul _ x6
    have n7 := isxdigit_ne_nul _ x7
    have n8 := isxdigit_ne_nul _ x8
    simp [strncpy, cstr_of, List.takeWhile, n0, n1, n2, n3, n4, n5, n6, n7, n8]

/-- An accepted colour has well-formed characters in the part that is read. -/
theorem valid_of_accepted (name : CStr) (buffer : List Char) (color : CStr)
    (hacc : (add_color name buffer color).1 = none) :
    valid_color (color_seen color) = true := by
  by_contra hn
  rw [add_color_eq, if_neg hn] at hacc
  simp at hacc

/-- C9: for every accepted colour and every buffer of at least 10 bytes,
`add_color` leaves in the buffer a terminated string of exactly 9 characters:
the colour followed by `ff` when it has 7 characters, the colour itself when
it has 9 (in general the characters read, `len` of them, followed by `ff` when
`len` is 7); byte 9 is the terminator and the bytes after it are untouched. -/
theorem add_color_normalizes (name : CStr) (buffer : List Char) (color : CStr)
    (hbuf : 10 ≤ buffer.length) (hacc : (add_color name buffer color).1 = none) :
    cstr_of (add_color name buffer color).2
        = (if (color_seen color).length = 7 then color_seen color ++ "ff".toList
           else color_seen color)
    ∧ (color.length < 2147483648 →
        cstr_of (add_color name buffer color).2
          = (if color.length = 7 then color ++ "ff".toList else color))
    ∧ (color.length = 7 → cstr_of (add_color name buffer color).2 = color ++ "ff".toList)
    ∧ (color.length = 9 → cstr_of (add_color name buffer color).2 = color)
    ∧ (cstr_of (add_color name buffer color).2).length = 9
    ∧ (add_color name buffer color).2.get? 9 = some (Char.ofNat 0)
    ∧ (add_color name buffer color).2.drop 10 = buffer.drop 10
    ∧ (add_color name buffer color).2.length = buffer.length := by
  have hv := valid_of_accepted name buffer color hacc
  obtain ⟨h1, h2, h3, h4, h5⟩ := add_color_buffer name buffer color hbuf hv
  have hlt : color.length < 2147483648 →
      cstr_of (add_color name buffer color).2
        = (if color.length = 7 then color ++ "ff".toList else color) := by
    intro hl
    rw [h1, color_seen_of_lt color hl]
  refine ⟨h1, hlt, ?_, ?_, h2, h3, h4, h5⟩
  · intro h7
    rw [hlt (by omega), if_pos h7]
  · intro h9
    rw [hlt (by omega), if_neg (by omega)]

/-- C9 (witness): `#AABBCC` becomes `#AABBCCff` in a 12-byte buffer; `#aabbccDD`
stays as it is. -/
theorem add_color_normalizes_witness :
    10 ≤ (List.replicate 12 'x').length
    ∧ (add_color "border".toList (List.replicate 12 'x') "#AABBCC".toList).1 = none
    ∧ (cstr_of (add_color "border".toList (List.replicate 12 'x') "#AABBCC".toList).2
        = (if (color_seen "#AABBCC".toList).length = 7
           then color_seen "#AABBCC".toList ++ "ff".toList
           else color_seen "#AABBCC".toList)
      ∧ ("#AABBCC".toList.length < 2147483648 →
          cstr_of (add_color "border".toList (List.replicate 12 'x') "#AABBCC".toList).2
            = (if "#AABBCC".toList.length = 7 then "#AABBCC".toList ++ "ff".toList
               else "#AABBCC".toList))
      ∧ ("#AABBCC".toList.length = 7 →
          cstr_of (add_color "border".toList (List.replicate 12 'x') "#AABBCC".toList).2
            = "#AABBCC".toList ++ "ff".toList)
      ∧ ("#AABBCC".toList.length = 9 →
          cstr_of (add_color "border".toList (List.replicate 12 'x') "#AABBCC".toList).2
            = "#AABBCC".toList)
      ∧ (cstr_of (add_color "border".toList (List.replicate 12 'x')
          "#AABBCC".toList).2).length = 9
      ∧ (add_color "border".toList (List.replicate 12 'x') "#AABBCC".toList).2.get? 9
          = some (Char.ofNat 0)
      ∧ (add_color "border".toList (List.replicate 12 'x') "#AABBCC".toList).2.drop 10
          = (List.replicate 12 'x').drop 10
      ∧ (add_color "border".toList (List.replicate 12 'x') "#AABBCC".toList).2.length
          = (List.replicate 12 'x').length)
    ∧ cstr_of (add_color "border".toList (List.replicate 12 'x') "#AABBCC".toList).2
        = "#AABBCCff".toList
    ∧ cstr_of (add_color "border".toList (List.replicate 12 'x') "#aabbccDD".toList).2
        = "#aabbccDD".toList :=
  ⟨by decide, by decide,
   add_color_normalizes "border".toList (List.replicate 12 'x') "#AABBCC".toList
     (by decide) (by decide),
   by decide, by decide⟩

/-! ## The argument vector of a command -/

/-- The tokenizer loop returns at least the token it is reading. -/
theorem split_args_loop_ne_nil (s : CStr) (quote : Option Char) (tok : CStr)
    (h : tok ≠ []) : split_args_loop s quote tok ≠ [] := by
  induction s generalizing quote tok with
  | nil => simp [split_args_loop, h]
  | cons c cs ih =>
    cases quote with
    | none =>
      simp only [split_args_loop, if_neg h]
      split_ifs
      · simp
      · exact ih _ _ (by simp)
      · exact ih _ _ (by simp)
    | some q =>
      simp only [split_args_loop]
      split_ifs
      · exact ih _ _ (by simp)
      · exact ih _ _ (by simp)

/-- A trimmed string does not start with whitespace. -/
theorem trim_leading_head (s : CStr) (c : Char) (cs : CStr)
    (h : trim_leading s = c :: cs) : c ∉ whitespace := by
  induction s with
  | nil => simp [trim_leading] at h
  | cons x xs ih =>
    simp only [trim_leading, List.dropWhile] at h ih
    by_cases hx : x ∈ whitespace
    · simp only [hx, decide_True] at h
      exact ih h
    · simp only [hx, decide_False, List.cons.injEq] at h
      rw [← h.1]
      exact hx

/-- The argument vector of a command that is not empty has an `argv[0]`: the
access `argv[0]` of `handle_command` never reads the terminating `NULL`. -/
theorem prepare_argv_ne_nil (s : CStr) (h : trim_leading s ≠ []) :
    prepare_argv (trim_leading s) ≠ [] := by
  cases hs : trim_leading s with
  | nil => exact absurd hs h
  | cons c cs =>
    have hc := trim_leading_head s c cs hs
    have hne : split_args (c :: cs) ≠ [] := by
      simp only [split_args, split_args_loop, if_neg hc]
      split_ifs
      · exact split_args_loop_ne_nil _ _ _ (by simp)
      · exact split_args_loop_ne_nil _ _ _ (by simp)
    unfold prepare_argv
    simp only
    split_ifs
    · cases hsp : split_args (c :: cs) with
      | nil => exact absurd hsp hne
      | cons a0 args => simp
    · exact hne

/-! ## Lookup by block -/

/-- C11 (counterexample): in each of the blocks other than the general one the
name `exit` resolves to the entry of `exit`; the lookup does not return `NULL`. -/
theorem find_handler_other_blocks_resolve :
    find_handler sample_exit "exit".toList .CMD_BLOCK_INPUT
        = some { command := "exit".toList, handle := some sample_exit }
    ∧ find_handler sample_exit "exit".toList .CMD_BLOCK_BAR
        = some { command := "exit".toList, handle := some sample_exit }
    ∧ find_handler sample_exit "exit".toList .CMD_BLOCK_BAR_COLORS
        = some { command := "exit".toList, handle := some sample_exit }
    ∧ find_handler sample_exit "exit".toList .CMD_BLOCK_IPC
        = some { command := "exit".toList, handle := some sample_exit }
    ∧ find_handler sample_exit "exit".toList .CMD_BLOCK_IPC_EVENTS
        = some { command := "exit".toList, handle := some sample_exit } := by
  refine ⟨?_, ?_, ?_, ?_, ?_⟩ <;> rw [find_handler_eq, if_pos (by decide)]

/-- C11 (amended): `find_handler` searches the one table `handlers` whatever the
block: its result for any block is its result for the general block, and in
every block it is `NULL` exactly for the names that differ from `exit` ignoring
case. -/
theorem find_handler_ignores_block (cmd_exit : sway_cmd) (name : CStr)
    (block : cmd_status) :
    find_handler cmd_exit name block = find_handler cmd_exit name .CMD_BLOCK_END
    ∧ (find_handler cmd_exit name block = none ↔ name.map tolower ≠ "exit".toList)
    ∧ (find_handler cmd_exit name block
          = some { command := "exit".toList, handle := some cmd_exit }
        ↔ name.map tolower = "exit".toList) := by
  refine ⟨rfl, ?_, ?_⟩
  · rw [find_handler_eq]
    generalize "exit".toList = e
    split_ifs with hz <;> simp [hz]
  · rw [find_handler_eq]
    generalize "exit".toList = e
    split_ifs with hz <;> simp [hz]

/-! ## cmd_results_to_json -/

/-- C12: `cmd_results_to_json` builds an array with exactly one element, an
object whose field `success` is the boolean `status == CMD_SUCCESS`, whose
field `input` is the input string when there is one and absent otherwise,
whose field `error` is the error string when there is one and absent
otherwise; the object has no other field, no field twice and no null value.
The result (INVALID, foo, bar) gives the three fields, the result
(SUCCESS, none, none) gives `success` only. -/
theorem cmd_results_to_json_shape (results : cmd_results) :
    (∃ fields, cmd_results_to_json results = .array [.object fields]
      ∧ fields.lookup "success".toList
          = some (.boolean (decide (results.status = .CMD_SUCCESS)))
      ∧ fields.lookup "input".toList = results.input.map json_object.string
      ∧ fields.lookup "error".toList = results.error.map json_object.string
      ∧ (∀ kv ∈ fields, (kv.1 = "success".toList ∨ kv.1 = "input".toList
            ∨ kv.1 = "error".toList) ∧ kv.2 ≠ .null)
      ∧ (fields.map Prod.fst).Nodup)
    ∧ cmd_results_to_json
        { status := .CMD_INVALID, input := some "foo".toList, error := some "bar".toList }
        = .array [.object [("success".toList, .boolean false),
            ("input".toList, .string "foo".toList), ("error".toList, .string "bar".toList)]]
    ∧ cmd_results_to_json { status := .CMD_SUCCESS, input := none, error := none }
        = .array [.object [("success".toList, .boolean true)]] := by
  have h1 : ("success".toList == "input".toList) = false := by decide
  have h2 : ("success".toList == "error".toList) = false := by decide
  have h3 : ("input".toList == "error".toList) = false := by decide
  have h4 : ("input".toList == "success".toList) = false := by decide
  have h5 : ("error".toList == "success".toList) = false := by decide
  have h6 : ("error".toList == "input".toList) = false := by decide
  have n1 : "success".toList ≠ "input".toList := by decide
  have n2 : "success".toList ≠ "error".toList := by decide
  have n3 : "input".toList ≠ "error".toList := by decide
  refine ⟨?_, rfl, rfl⟩
  obtain ⟨status, input, error⟩ := results
  cases input with
  | none =>
    cases error with
    | none =>
      refine ⟨[("success".toList, .boolean (decide (status = .CMD_SUCCESS)))], rfl, ?_⟩
      generalize "success".toList = ks at *
      generalize "input".toList = ki at *
      generalize "error".toList = ke at *
      simp [List.lookup, h1, h2, h3, h4, h5, h6, n1, n2, n3, n1.symm, n2.symm, n3.symm]
    | some e =>
      refine ⟨[("success".toList, .boolean (decide (status = .CMD_SUCCESS))),
        ("error".toList, .string e)], ?_, ?_⟩
      · simp only [cmd_results_to_json, json_object_object_add, json_object_array_add,
          List.any_nil, List.any_cons, h2, Bool.or_false, Bool.false_eq_true, if_false,
          List.nil_append, List.cons_append]
      · generalize "success".toList = ks at *
        generalize "input".toList = ki at *
        generalize "error".toList = ke at *
        simp [List.lookup, h1, h2, h3, h4, h5, h6, n1, n2, n3, n1.symm, n2.symm, n3.symm]
  | some i =>
    cases error with
    | none =>
      refine ⟨[("success".toList, .boolean (decide (status = .CMD_SUCCESS))),
        ("input".toList, .string i)], ?_, ?_⟩
      · simp only [cmd_results_to_json, json_object_object_add, json_object_array_add,
          List.any_nil, List.any_cons, h1, Bool.or_false, Bool.false_eq_true, if_false,
          List.nil_append, List.cons_append]
      · generalize "success".toList = ks at *
        generalize "input".toList = ki at *
        generalize "error".toList = ke at *
        simp [List.lookup, h1, h2, h3, h4, h5, h6, n1, n2, n3, n1.symm, n2.symm, n3.symm]
    | some e =>
      refine ⟨[("success".toList, .boolean (decide (status = .CMD_SUCCESS))),
        ("input".toList, .string i), ("error".toList, .string e)], ?_, ?_⟩
      · simp only [cmd_results_to_json, json_object_object_add, json_object_array_add,
          List.any_nil, List.any_cons, h1, h2, h3, Bool.or_false, Bool.false_eq_true, if_false,
          List.nil_append, List.cons_append]
      · generalize "success".toList = ks at *
        generalize "input".toList = ki at *
        generalize "error".toList = ke at *
        simp [List.lookup, h1, h2, h3, h4, h5, h6, n1, n2, n3, n1.symm, n2.symm, n3.symm]

/-! ## The input of an unknown command -/

/-- C13: for the line `bogus arg` the input of the result is the whole command
string `bogus arg`, while the name of the command, `argv[0]`, is `bogus`; so
the input is not the command name. -/
theorem handle_command_input_is_whole_command :
    handle_command sample_exit "bogus arg".toList = some
        { status := .CMD_INVALID, input := some "bogus arg".toList,
          error := some "Unknown/invalid command".toList }
    ∧ command_name "bogus arg".toList = "bogus".toList
    ∧ prepare_argv "bogus arg".toList = ["bogus".toList, "arg".toList]
    ∧ handle_command sample_exit "exit; nope  'x y' ".toList = some
        { status := .CMD_INVALID, input := some "nope  'x y' ".toList,
          error := some "Unknown/invalid command".toList }
    ∧ command_name "nope  'x y' ".toList = "nope".toList := by
  decide

/-! ## Quote stripping -/

/-- C14 (counterexample): in the command `'exit' 'now'` the token `argv[0]`
begins with a quote and `strip_quotes` would change it, yet the dispatcher
leaves it as the tokenizer produced it; only `argv[1]` is stripped. -/
theorem prepare_argv_keeps_quoted_name :
    split_args "'exit' 'now'".toList = ["'exit'".toList, "'now'".toList]
    ∧ begins_with_quote "'exit'".toList = true
    ∧ strip_quotes "'exit'".toList = "exit".toList
    ∧ prepare_argv "'exit' 'now'".toList = ["'exit'".toList, "now".toList] := by
  decide

/-- C14 (amended): the dispatcher leaves `argv[0]` as the tokenizer produced it
and, unless `argv[0]` is `exec`, replaces every later token that begins with a
single or double quote by its `strip_quotes` and leaves the other tokens
unchanged; when `argv[0]` is `exec` the whole vector is left as it was.  The
number of tokens does not change. -/
theorem prepare_argv_strips_arguments (cmd : CStr) (i : Nat) :
    (prepare_argv cmd).get? i
        = ((split_args cmd).get? i).map (fun tok =>
            if (split_args cmd).headD [] = "exec".toList ∨ i = 0 then tok
            else if begins_with_quote tok = true then strip_quotes tok else tok)
    ∧ (prepare_argv cmd).length = (split_args cmd).length := by
  unfold prepare_argv
  simp only
  generalize "exec".toList = ex
  by_cases he : (split_args cmd).headD [] = ex
  · have hne : ¬ ((split_args cmd).headD [] ≠ ex) := fun h => h he
    rw [if_neg hne]
    refine ⟨?_, rfl⟩
    cases (split_args cmd).get? i with
    | none => rfl
    | some tok => simp only [Option.map_some', he, true_or, if_true]
  · rw [if_pos he]
    cases hs : split_args cmd with
    | nil => simp
    | cons a0 args =>
      rw [hs] at he
      cases i with
      | zero => simp
      | succ k =>
        simp only [List.get?_cons_succ, List.length_cons, List.length_map, and_true]
        rw [List.get?_eq_getElem?, List.get?_eq_getElem?, List.getElem?_map]
        cases args[k]? with
        | none => rfl
        | some tok =>
          simp only [Option.map_some', he, false_or, Nat.succ_ne_zero, if_false,
            begins_with_quote, decide_eq_true_eq, Nat.add_one_ne_zero]

/-! ## The results and their error messages -/

/-- The variable `results` after a dispatch is what it was before or the result
of an unknown command. -/
theorem run_commands_results (cmd_exit : sway_cmd) (cmds : List CStr) (st : dispatch_state) :
    (run_commands cmd_exit cmds st).2.results = st.results
      ∨ ∃ c, (run_commands cmd_exit cmds st).2.results = some (unknown_command c) := by
  induction cmds generalizing st with
  | nil => exact Or.inl rfl
  | cons c cs ih =>
    simp only [run_commands]
    split_ifs
    · exact Or.inr ⟨c, rfl⟩
    · exact ih _

/-- The result of a line is the synthetic success or the result of an unknown
command. -/
theorem handle_command_result_cases (cmd_exit : sway_cmd) (line : CStr) :
    handle_command cmd_exit line = some line_success
      ∨ ∃ c, handle_command cmd_exit line = some (unknown_command c) := by
  simp only [handle_command, handle_command_run_eq, Option.map, finish]
  rcases run_commands_results cmd_exit (commands line) { results := none, log := [] }
    with h | ⟨c, h⟩
  · left
    simp only at h
    rw [h]
    rfl
  · right
    exact ⟨c, by rw [h]⟩

/-- C16: every result that `handle_command`, `checkarg` or `add_color` returns
has an error message exactly when its status is not `CMD_SUCCESS`; a success
has neither input nor error, and a `CMD_INVALID` result has both. -/
theorem results_error_iff_not_success (cmd_exit : sway_cmd) (line : CStr) (argc : Int)
    (name : CStr) (type : expected_args) (val : Int) (buffer : List Char) (color : CStr)
    (r : cmd_results)
    (h : handle_command cmd_exit line = some r ∨ checkarg argc name type val = some r
      ∨ (add_color name buffer color).1 = some r) :
    (r.error.isSome = true ↔ r.status ≠ .CMD_SUCCESS)
    ∧ (r.status = .CMD_SUCCESS → r.input = none ∧ r.error = none)
    ∧ (r.status = .CMD_INVALID → r.input.isSome = true ∧ r.error.isSome = true) := by
  rcases h with h | h | h
  · rcases handle_command_result_cases cmd_exit line with h2 | ⟨c, h2⟩
    · rw [h2] at h
      cases h
      simp [line_success]
    · rw [h2] at h
      cases h
      simp [unknown_command]
  · by_cases hr : relation_holds type argc val = false
    · obtain ⟨sfx, -, hs⟩ := checkarg_some argc name type val hr
      rw [hs] at h
      cases h
      simp
    · exfalso
      have hr2 : relation_holds type argc val = true := by simpa using hr
      cases type <;> simp only [relation_holds, decide_eq_true_eq] at hr2 <;>
        simp [checkarg, hr2] at h
  · rw [add_color_eq] at h
    by_cases hv : valid_color (color_seen color) = true
    · rw [if_pos hv] at h
      cases h
    · rw [if_neg hv] at h
      cases h
      simp

/-- C16 (witness): the result of the line `bogus`. -/
theorem results_error_iff_not_success_witness :
    (handle_command sample_exit "bogus".toList = some (unknown_command "bogus".toList)
      ∨ checkarg 2 "exit".toList .EXPECTED_AT_LEAST 3 = some (unknown_command "bogus".toList)
      ∨ (add_color "exit".toList [] "#ABC".toList).1 = some (unknown_command "bogus".toList))
    ∧ ((unknown_command "bogus".toList).error.isSome = true
        ↔ (unknown_command "bogus".toList).status ≠ .CMD_SUCCESS)
    ∧ ((unknown_command "bogus".toList).status = .CMD_SUCCESS →
        (unknown_command "bogus".toList).input = none
          ∧ (unknown_command "bogus".toList).error = none)
    ∧ ((unknown_command "bogus".toList).status = .CMD_INVALID →
        (unknown_command "bogus".toList).input.isSome = true
          ∧ (unknown_command "bogus".toList).error.isSome = true) :=
  ⟨Or.inl (by decide),
   results_error_iff_not_success sample_exit "bogus".toList 2 "exit".toList
     .EXPECTED_AT_LEAST 3 [] "#ABC".toList (unknown_command "bogus".toList)
     (Or.inl (by decide))⟩

/-- C17: when `add_color` rejects a colour the buffer is what it was before the
call. -/
theorem add_color_reject_keeps_buffer (name : CStr) (buffer : List Char) (color : CStr)
    (h : (add_color name buffer color).1 ≠ none) :
    (add_color name buffer color).2 = buffer := by
  rw [add_color_eq] at h ⊢
  by_cases hv : valid_color (color_seen color) = true
  · rw [if_pos hv] at h
    exact absurd rfl h
  · rw [if_neg hv]

/-- C17 (witness): the colour `#ZZZZZZ` and a buffer holding `#11223344`. -/
theorem add_color_reject_keeps_buffer_witness :
    (add_color "border".toList ("#11223344".toList ++ [Char.ofNat 0]) "#ZZZZZZ".toList).1 ≠ none
    ∧ (add_color "border".toList ("#11223344".toList ++ [Char.ofNat 0]) "#ZZZZZZ".toList).2
        = "#11223344".toList ++ [Char.ofNat 0] :=
  ⟨by decide,
   add_color_reject_keeps_buffer "border".toList ("#11223344".toList ++ [Char.ofNat 0])
     "#ZZZZZZ".toList (by decide)⟩

/-! ## Termination of handle_command -/

/-- A split has one piece more than the text has separators. -/
theorem split_on_length (d : Char) (s : CStr) :
    (split_on d s).length = s.count d + 1 := by
  induction s with
  | nil => rfl
  | cons c cs ih =>
    by_cases hc : c = d
    · subst hc
      simp [split_on, ih]
    · have hcd : (c == d) = false := beq_eq_false_iff_ne.mpr hc
      simp only [split_on, if_neg hc, List.count_cons, hcd, Bool.false_eq_true, if_false,
        Nat.add_zero]
      cases hs : split_on d cs with
      | nil => exact absurd hs (split_on_ne_nil d cs)
      | cons q qs =>
        rw [hs] at ih
        simpa using ih

/-- The pieces of a split hold all the occurrences of a character other than
the separator. -/
theorem split_on_count_sum (d x : Char) (hx : x ≠ d) (s : CStr) :
    ((split_on d s).map (List.count x)).sum = s.count x := by
  induction s with
  | nil => rfl
  | cons c cs ih =>
    by_cases hc : c = d
    · subst hc
      have hcx : (c == x) = false := beq_eq_false_iff_ne.mpr (fun h => hx h.symm)
      simp [split_on, ih, List.count_cons, hcx]
    · simp only [split_on, if_neg hc]
      cases hs : split_on d cs with
      | nil => exact absurd hs (split_on_ne_nil d cs)
      | cons q qs =>
        rw [hs] at ih
        simp only [List.map_cons, List.sum_cons, List.count_cons] at ih ⊢
        omega

/-- Two different characters occur together at most as often as the text is
long. -/
theorem count_add_count_le (a b : Char) (hab : a ≠ b) (l : CStr) :
    l.count a + l.count b ≤ l.length := by
  induction l with
  | nil => simp
  | cons c cs ih =>
    simp only [List.count_cons, List.length_cons]
    by_cases h1 : c = a
    · have h2 : (c == b) = false := beq_eq_false_iff_ne.mpr (fun h => hab (h1 ▸ h))
      simp only [h2, Bool.false_eq_true, if_false]
      split_ifs <;> omega
    · have h2 : (c == a) = false := beq_eq_false_iff_ne.mpr h1
      simp only [h2, Bool.false_eq_true, if_false]
      split_ifs <;> omega

/-- The commands of a list of pieces: one per piece and one per comma. -/
theorem flatMap_commands_length (ps : List CStr) :
    (ps.flatMap (fun cmdlist => (split_on ',' (trim_leading cmdlist)).map trim_leading)).length
      ≤ (ps.map (List.count ',')).sum + ps.length := by
  induction ps with
  | nil => simp
  | cons q qs ih =>
    have h1 : (trim_leading q).count ',' ≤ q.count ',' := by
      unfold trim_leading
      exact (List.dropWhile_sublist _).count_le _
    simp only [List.flatMap_cons, List.length_append, List.length_map, split_on_length,
      List.map_cons, List.sum_cons, List.length_cons]
    omega

/-- A line has at most one command more than it has characters. -/
theorem commands_length_le (line : CStr) : (commands line).length ≤ line.length + 1 := by
  have h1 := flatMap_commands_length (split_on ';' line)
  have h2 := split_on_count_sum ';' ',' (by decide) line
  have h3 := split_on_length ';' line
  have h4 := count_add_count_le ',' ';' (by decide) line
  unfold commands
  omega

/-- C15: `handle_command` returns on every line.  Each call of `argsep` leaves
a text shorter than the one it was given, so `strlen + 1` iterations are
enough for either loop and more fuel changes nothing; the commands handled are
at most one more than the characters of the line. -/
theorem handle_command_terminates (cmd_exit : sway_cmd) (line : CStr) :
    (∃ r log, handle_command_run cmd_exit line = some (r, log))
    ∧ (handle_command cmd_exit line).isSome = true
    ∧ (∀ s delim rest, (argsep s delim).2 = some rest → rest.length < s.length)
    ∧ (commands line).length ≤ line.length + 1
    ∧ (∀ fuel n st, line.length < fuel → line.length < n →
        cmdlist_loop cmd_exit n fuel line st
          = cmdlist_loop cmd_exit (line.length + 1) (line.length + 1) line st)
    ∧ (∀ fuel cmdlist st, cmdlist.length < fuel →
        command_loop cmd_exit fuel cmdlist st
          = command_loop cmd_exit (cmdlist.length + 1) cmdlist st
        ∧ command_loop cmd_exit fuel cmdlist st ≠ none) := by
  refine ⟨?_, ?_, ?_, commands_length_le line, ?_, ?_⟩
  · rw [handle_command_run_eq]
    exact ⟨_, _, rfl⟩
  · simp [handle_command, handle_command_run_eq]
  · intro s delim rest h
    exact argsep_snd_length delim s rest h
  · intro fuel n st h1 h2
    rw [cmdlist_loop_eq cmd_exit n fuel line st h1 h2,
      cmdlist_loop_eq cmd_exit _ _ line st (by omega) (by omega)]
  · intro fuel cmdlist st h1
    rw [command_loop_eq cmd_exit fuel cmdlist st h1,
      command_loop_eq cmd_exit _ cmdlist st (by omega)]
    exact ⟨rfl, by simp⟩

/-! ## Normalisation twice -/

/-- The normalised form of a well-formed colour is a well-formed colour of 9
characters. -/
theorem valid_color_normalized (color : CStr) (hv : valid_color color = true) :
    valid_color (if color.length = 7 then color ++ "ff".toList else color) = true
    ∧ (if color.length = 7 then color ++ "ff".toList else color).length = 9 := by
  obtain ⟨hlen, hhead, hhex⟩ := (valid_color_iff color).mp hv
  have hff : "ff".toList = ['f', 'f'] := rfl
  have hf : isxdigit 'f' = true := by decide
  by_cases h7 : color.length = 7
  · rw [if_pos h7]
    obtain ⟨c0, c1, c2, c3, c4, c5, c6, rfl⟩ := length_seven color h7
    refine ⟨?_, by simp [hff]⟩
    rw [valid_color_iff]
    simp only [List.drop_succ_cons, List.drop_zero, List.all_cons, List.all_nil,
      Bool.and_true, Bool.and_eq_true] at hhex
    obtain ⟨x1, x2, x3, x4, x5, x6⟩ := hhex
    refine ⟨by simp [hff], by simpa using hhead, ?_⟩
    simp [hff, x1, x2, x3, x4, x5, x6, hf]
  · rw [if_neg h7]
    exact ⟨hv, by omega⟩

/-- C18: colour normalisation is idempotent.  For an accepted colour the
string left in the buffer is accepted by `add_color` again, and normalising it
into any buffer of at least 10 bytes leaves the same string. -/
theorem add_color_idempotent (name : CStr) (buffer : List Char) (color : CStr)
    (name2 : CStr) (buffer2 : List Char)
    (hbuf : 10 ≤ buffer.length) (hbuf2 : 10 ≤ buffer2.length)
    (hacc : (add_color name buffer color).1 = none) :
    (add_color name2 buffer2 (cstr_of (add_color name buffer color).2)).1 = none
    ∧ cstr_of (add_color name2 buffer2 (cstr_of (add_color name buffer color).2)).2
        = cstr_of (add_color name buffer color).2
    ∧ (cstr_of (add_color name buffer color).2).length = 9 := by
  have hv := valid_of_accepted name buffer color hacc
  obtain ⟨hv2, hl2⟩ := valid_color_normalized (color_seen color) hv
  rw [(add_color_buffer name buffer color hbuf hv).1]
  generalize (if (color_seen color).length = 7 then color_seen color ++ "ff".toList
    else color_seen color) = out at hv2 hl2
  have hpre : color_seen out = out := color_seen_of_lt out (by omega)
  have hv3 : valid_color (color_seen out) = true := by rw [hpre]; exact hv2
  refine ⟨?_, ?_, hl2⟩
  · rw [add_color_eq, if_pos hv3]
  · rw [(add_color_buffer name2 buffer2 out hbuf2 hv3).1, hpre, if_neg (by omega)]

/-- C18 (witness): `#AABBCC` is normalised to `#AABBCCff`, which is normalised
to itself. -/
theorem add_color_idempotent_witness :
    10 ≤ (List.replicate 10 'x').length ∧ 10 ≤ (List.replicate 16 'y').length
    ∧ (add_color "border".toList (List.replicate 10 'x') "#AABBCC".toList).1 = none
    ∧ ((add_color "bar".toList (List.replicate 16 'y')
          (cstr_of (add_color "border".toList (List.replicate 10 'x')
            "#AABBCC".toList).2)).1 = none
      ∧ cstr_of (add_color "bar".toList (List.replicate 16 'y')
          (cstr_of (add_color "border".toList (List.replicate 10 'x')
            "#AABBCC".toList).2)).2
          = cstr_of (add_color "border".toList (List.replicate 10 'x') "#AABBCC".toList).2
      ∧ (cstr_of (add_color "border".toList (List.replicate 10 'x')
            "#AABBCC".toList).2).length = 9)
    ∧ cstr_of (add_color "border".toList (List.replicate 10 'x') "#AABBCC".toList).2
        = "#AABBCCff".toList :=
  ⟨by decide, by decide, by decide,
   add_color_idempotent "border".toList (List.replicate 10 'x') "#AABBCC".toList
     "bar".toList (List.replicate 16 'y') (by decide) (by decide) (by decide),
   by decide⟩

/-! ## The 255 bytes of an error message -/

/-- The text of `checkarg` exceeds the command name by more than 8 characters. -/
theorem checkarg_text_length_lt (name : CStr) (type : expected_args) (val : Int)
    (sfx : CStr) (argc : Int) :
    name.length + 8 < (checkarg_text name type val sfx argc).length := by
  have h8 : "Invalid ".toList.length = 8 := by decide
  have h1 : ")".toList.length = 1 := by decide
  simp only [checkarg_text, List.length_append, h8, h1]
  omega

/-- C19: the error stored by `cmd_results_new` is the first 255 bytes of the
formatted text (no error for a `NULL` format): it never has more than 255
bytes and is the whole text when the text has at most 255 bytes.  Hence the
message of `checkarg` for a violated relation and a name of 247 bytes or more
is `Invalid ` and the first 247 bytes of the name, and every message that
`add_color` builds for a colour of 231 bytes or more is
`Invalid color definition ` and the first 230 bytes of the colour; both are
shorter than the full text.  A colour of 231 bytes or more and less than 2^31
bytes always gets such a message. -/
theorem cmd_results_new_error_cut (status : cmd_status) (input : Option CStr)
    (formatted : CStr) :
    (cmd_results_new status input (some formatted)).error = some (formatted.take 255)
    ∧ (formatted.take 255).length ≤ 255
    ∧ (formatted.length ≤ 255 →
        (cmd_results_new status input (some formatted)).error = some formatted)
    ∧ (255 < formatted.length →
        (cmd_results_new status input (some formatted)).error ≠ some formatted)
    ∧ (cmd_results_new status input none).error = none
    ∧ (cmd_results_new status input (some formatted)).status = status
    ∧ (cmd_results_new status input (some formatted)).input = input
    ∧ (∀ argc name type val, relation_holds type argc val = false → 247 ≤ name.length →
        ∃ r, checkarg argc name type val = some r
          ∧ r.error = some ("Invalid ".toList ++ name.take 247)
          ∧ ∀ sfx, r.error ≠ some (checkarg_text name type val sfx argc))
    ∧ (∀ name buffer color r, (add_color name buffer color).1 = some r →
        231 ≤ color.length →
          r.error = some ("Invalid color definition ".toList ++ color.take 230)
          ∧ r.error ≠ some ("Invalid color definition ".toList ++ color))
    ∧ (∀ name buffer color, 231 ≤ color.length → color.length < 2147483648 →
        ∃ r, (add_color name buffer color).1 = some r
          ∧ r.error = some ("Invalid color definition ".toList ++ color.take 230)
          ∧ r.error ≠ some ("Invalid color definition ".toList ++ color)) := by
  have h25 : "Invalid color definition ".toList.length = 25 := by decide
  have hcut : ∀ name buffer color r, (add_color name buffer color).1 = some r →
      231 ≤ color.length →
        r.error = some ("Invalid color definition ".toList ++ color.take 230)
        ∧ r.error ≠ some ("Invalid color definition ".toList ++ color) := by
    intro name buffer color r hr hc
    have htake : (color_text color).take 255
        = "Invalid color definition ".toList ++ color.take 230 := by
      simp only [color_text]
      rw [List.take_append_eq_append_take, List.take_of_length_le (by rw [h25]; omega), h25]
    rw [add_color_eq] at hr
    by_cases hv : valid_color (color_seen color) = true
    · rw [if_pos hv] at hr
      cases hr
    · rw [if_neg hv, htake] at hr
      cases hr
      refine ⟨rfl, ?_⟩
      intro hEq
      have hl := congrArg List.length (Option.some.inj hEq)
      rw [List.length_append, List.length_append, List.length_take] at hl
      omega
  refine ⟨rfl, ?_, ?_, ?_, rfl, rfl, rfl, ?_, hcut, ?_⟩
  · rw [List.length_take]; omega
  · intro h
    simp only [cmd_results_new, Option.map, vsnprintf256, List.take_of_length_le h]
  · intro h hEq
    simp only [cmd_results_new, Option.map, vsnprintf256, Option.some.injEq] at hEq
    have := congrArg List.length hEq
    rw [List.length_take] at this
    omega
  · intro argc name type val hr hn
    obtain ⟨sfx0, -, hs⟩ := checkarg_some argc name type val hr
    rw [checkarg_text_take _ _ _ _ _ hn] at hs
    refine ⟨_, hs, rfl, ?_⟩
    intro sfx hEq
    have hlen := congrArg List.length (Option.some.inj hEq)
    have hlt := checkarg_text_length_lt name type val sfx argc
    have h8 : "Invalid ".toList.length = 8 := by decide
    rw [List.length_append, h8, List.length_take] at hlen
    omega
  · intro name buffer color hc hlt
    have hnv := not_valid_of_length color hlt (by omega) (by omega)
    have hsome : ∃ r, (add_color name buffer color).1 = some r := by
      rw [add_color_eq, if_neg hnv]
      exact ⟨_, rfl⟩
    obtain ⟨r, hr⟩ := hsome
    exact ⟨r, hr, hcut name buffer color r hr hc⟩

end Sway
